import Mathlib

/-!
Attention heatmap renderer

A shallow embedding of the `useEffect` body of
`frontend/src/components/AttentionVisualization.jsx`.

* JavaScript numbers are embedded as rationals: every finite double is a
  rational and all the arithmetic of the component (`d3.scaleBand`,
  `d3.scaleSequential`, `toFixed`) is carried out exactly.
* The argument that line 49 hands to the colour interpolator is evaluated a
  second time as binary64 computes it, with a rounding to nearest (ties to
  even) after each operation: `fl`, `SequentialScale.position64`, `render64`.
* The drawing surface (the `<svg>` element behind `svgRef`) is an explicit
  value that `render` receives and returns.
* The only exception the body can raise on well-typed props is the
  `TypeError` of `weights.flat()` when `attentionWeights[0][selectedHead]`
  is `undefined`; it is an explicit outcome.
-/

namespace AttentionVisualization

/-! ## Runtime pieces whose result is opaque text -/

/-- The two library functions whose output is only ever copied into the
scene: `Number::toString` (reached by `toFixed` for magnitudes of at least
`10^21`) and the colour ramp `d3.interpolateBlues`. -/
structure Runtime where
  numberToString : ℚ → String
  interpolateBlues : ℚ → String

/-! ## `Number.prototype.toFixed` -/

/-- The integer `n` for which `n / 10^f - x` is as close to zero as possible,
the larger one on a tie (ECMAScript `toFixed`, step 11.a), for `x ≥ 0`. -/
def nearestScaled (x : ℚ) (f : Nat) : Nat :=
  (⌊x * (10 : ℚ) ^ f + 1 / 2⌋).toNat

/-- Steps 11.b and 11.c of `toFixed`: the decimal digits of `n`, left-padded
with zeros to `f + 1` characters, with a `.` before the last `f` of them. -/
def fixedDigits (n f : Nat) : List Char :=
  let m := if n = 0 then ['0'] else Nat.toDigits 10 n
  if f ≠ 0 then
    let k := m.length
    let m := if k ≤ f then List.replicate (f + 1 - k) '0' ++ m else m
    let k := if k ≤ f then f + 1 else k
    m.take (k - f) ++ '.' :: m.drop (k - f)
  else m

/-- `x.toFixed(f)` for a finite number `x` and `0 ≤ f ≤ 100`. -/
def toFixed (rt : Runtime) (x : ℚ) (f : Nat) : String :=
  let s := if x < 0 then "-" else ""
  let x := if x < 0 then -x else x
  let m := if (10 : ℚ) ^ 21 ≤ x then rt.numberToString x
    else String.mk (fixedDigits (nearestScaled x f) f)
  s ++ m

/-! ## `d3.max`, `d3.scaleSequential`, `d3.scaleBand` -/

/-- `d3.max(values)`: the running maximum, `undefined` on an empty array. -/
def d3max (values : List ℚ) : Option ℚ :=
  values.foldl (fun max value =>
    match max with
    | none => some value
    | some m => if m < value then some value else some m) none

/-- `d3.max(weights.flat()) || 1` (line 28): `undefined` and `0` are falsy. -/
def domainMax (weights : List (List ℚ)) : ℚ :=
  match d3max weights.flatten with
  | none => 1
  | some m => if m = 0 then 1 else m

/-- A `d3.scaleSequential` with domain `[x0, x1]`, identity transform and no
clamping. -/
structure SequentialScale where
  x0 : ℚ
  x1 : ℚ
deriving DecidableEq

/-- The factor `k10 = t0 === t1 ? 0 : 1 / (t1 - t0)` of a sequential scale. -/
def SequentialScale.k10 (s : SequentialScale) : ℚ :=
  if s.x0 = s.x1 then 0 else 1 / (s.x1 - s.x0)

/-- The position handed to the interpolator,
`k10 === 0 ? 0.5 : (x - t0) * k10`, in exact arithmetic; `position64` below
is the same expression with the roundings of binary64. -/
def SequentialScale.position (s : SequentialScale) (x : ℚ) : ℚ :=
  if s.k10 = 0 then 1 / 2 else (x - s.x0) * s.k10

/-- The scale `colorScale` of lines 27-28, as a sequential scale. -/
def colorDomain (weights : List (List ℚ)) : SequentialScale :=
  { x0 := 0, x1 := domainMax weights }

/-- The call `colorScale(w)` of line 49. -/
def colorScale (rt : Runtime) (weights : List (List ℚ)) (w : ℚ) : String :=
  rt.interpolateBlues ((colorDomain weights).position w)

/-- A `d3.scaleBand` after `rescale()`. Its domain is the list of keys
`"0", ..., "n-1"` (`tokens.map((_, i) => i.toString())`), which are pairwise
distinct, so the key `j.toString()` is identified with its index `j`. -/
structure BandScale where
  step : ℚ
  bandwidth : ℚ
  values : List ℚ
deriving DecidableEq

/-- The function `rescale()` of `d3.scaleBand` with `round = false` and
`align = 0.5`, for a domain of `n` keys, range `[r0, r1]` and
`.padding(p)` (which sets `paddingOuter = p`, `paddingInner = min(1, p)`). -/
def scaleBand (n : Nat) (r0 r1 p : ℚ) : BandScale :=
  let paddingInner := min 1 p
  let paddingOuter := p
  let reverse := r1 < r0
  let start := if reverse then r1 else r0
  let stop := if reverse then r0 else r1
  let step := (stop - start) / max 1 ((n : ℚ) - paddingInner + paddingOuter * 2)
  let start := start + (stop - start - step * ((n : ℚ) - paddingInner)) * (1 / 2)
  let bandwidth := step * (1 - paddingInner)
  let values := (List.range n).map (fun (i : Nat) => start + step * (i : ℚ))
  { step := step, bandwidth := bandwidth,
    values := if reverse then values.reverse else values }

/-- The call `scale(j.toString())`: `undefined` for a key outside the domain. -/
def BandScale.lookup (s : BandScale) (j : Nat) : Option ℚ :=
  s.values[j]?

/-- The expression `scale(j.toString()) || 0`. -/
def BandScale.coord (s : BandScale) (j : Nat) : ℚ :=
  (s.lookup j).getD 0

/-! ## The scene -/

/-- A `rotate(angle)` or `rotate(angle, cx, cy)` transform. -/
structure Rotate where
  angle : ℚ
  centre : Option (ℚ × ℚ)
deriving DecidableEq

/-- A `<rect>` with its `<title>` child. -/
structure Rect where
  x : ℚ
  y : ℚ
  width : ℚ
  height : ℚ
  fill : String
  stroke : String
  strokeWidth : ℚ
  title : String
deriving DecidableEq

/-- A `<text>` element. -/
structure Text where
  x : ℚ
  y : ℚ
  dy : Option String
  transform : Option Rotate
  anchor : String
  fontSize : Nat
  bold : Bool
  content : String
deriving DecidableEq

/-- A child of the main group `g`: a cell, a nested group of axis labels
(with its optional `translate`), or a caption / title. -/
inductive Elem where
  | rect (r : Rect)
  | labels (translate : Option (ℚ × ℚ)) (texts : List Text)
  | text (t : Text)
deriving DecidableEq

/-- A top-level `<g transform="translate(left, top)">`. -/
structure Group where
  translate : ℚ × ℚ
  body : List Elem
deriving DecidableEq

/-- The `<svg>` element: its `width` / `height` attributes and its children. -/
structure Svg where
  width : Option ℚ
  height : Option ℚ
  children : List Group
deriving DecidableEq

/-- A freshly mounted `<svg ref={svgRef}></svg>`. -/
def Svg.empty : Svg :=
  { width := none, height := none, children := [] }

/-- How the effect body ends. -/
inductive Outcome where
  | done
  | typeError
deriving DecidableEq

/-! ## The effect body -/

/-- The constant `margin` of line 16. -/
structure Margin where
  top : ℚ
  right : ℚ
  bottom : ℚ
  left : ℚ

/-- Line 16. -/
def margin : Margin :=
  { top := 20, right := 20, bottom := 90, left := 90 }

/-- Line 17. -/
def width : ℚ := 500 - margin.left - margin.right

/-- Line 18. -/
def height : ℚ := 500 - margin.top - margin.bottom

/-- Lines 31-34. -/
def xScale (tokens : List String) : BandScale :=
  scaleBand tokens.length 0 width (5 / 100)

/-- Lines 36-39. -/
def yScale (tokens : List String) : BandScale :=
  scaleBand tokens.length 0 height (5 / 100)

/-- An array read `xs[i]` with a JavaScript integer index. -/
def index {α : Type} (xs : List α) (i : Int) : Option α :=
  if 0 ≤ i then xs[i.toNat]? else none

/-- A token inside a template literal: `undefined` prints as such. -/
def tokenText (tokens : List String) (i : Nat) : String :=
  (tokens[i]?).getD "undefined"

/-- The tooltip text of line 53. -/
def tooltip (rt : Runtime) (tokens : List String) (i j : Nat) (w : ℚ) : String :=
  "From: " ++ tokenText tokens j ++ ", To: " ++ tokenText tokens i ++
    ", Weight: " ++ toFixed rt w 4

/-- The rectangle appended by lines 44-53 for `weights[i][j] = w`. -/
def cell (rt : Runtime) (tokens : List String) (weights : List (List ℚ))
    (i j : Nat) (w : ℚ) : Rect :=
  { x := (xScale tokens).coord j
    y := (yScale tokens).coord i
    width := (xScale tokens).bandwidth
    height := (yScale tokens).bandwidth
    fill := colorScale rt weights w
    stroke := "#fff"
    strokeWidth := 1 / 2
    title := tooltip rt tokens i j w }

/-- The double loop of lines 42-55, in emission order. -/
def cells (rt : Runtime) (tokens : List String) (weights : List (List ℚ)) : List Rect :=
  (weights.mapIdx (fun i row => row.mapIdx (fun j w => cell rt tokens weights i j w))).flatten

/-- Lines 58-73: one rotated label per token below the grid. -/
def xLabels (tokens : List String) : List Text :=
  tokens.mapIdx (fun i d =>
    let x := (xScale tokens).coord i + (xScale tokens).bandwidth / 2
    { x := x, y := 10, dy := some ".35em"
      transform := some { angle := -45, centre := some (x, 10) }
      anchor := "end", fontSize := 12, bold := false, content := d })

/-- Lines 76-86: one label per token left of the grid. -/
def yLabels (tokens : List String) : List Text :=
  tokens.mapIdx (fun i d =>
    { x := -10, y := (yScale tokens).coord i + (yScale tokens).bandwidth / 2
      dy := some ".35em", transform := none
      anchor := "end", fontSize := 12, bold := false, content := d })

/-- Lines 89-95. -/
def xCaption : Text :=
  { x := width / 2, y := height + margin.bottom - 10, dy := none, transform := none
    anchor := "middle", fontSize := 14, bold := true, content := "Source Tokens (Keys)" }

/-- Lines 97-104. -/
def yCaption : Text :=
  { x := -height / 2, y := -margin.left + 20, dy := none
    transform := some { angle := -90, centre := none }
    anchor := "middle", fontSize := 14, bold := true, content := "Target Tokens (Queries)" }

/-- Lines 107-113. -/
def headTitle (selectedHead : Int) : Text :=
  { x := width / 2, y := -margin.top / 2, dy := none, transform := none
    anchor := "middle", fontSize := 16, bold := true
    content := "Attention Weights - Head " ++ toString (selectedHead + 1) }

/-- Everything appended to `g` by lines 42-113, in document order. -/
def draw (rt : Runtime) (tokens : List String) (weights : List (List ℚ))
    (selectedHead : Int) : List Elem :=
  (cells rt tokens weights).map Elem.rect ++
    [Elem.labels (some (0, height)) (xLabels tokens),
     Elem.labels none (yLabels tokens),
     Elem.text xCaption, Elem.text yCaption, Elem.text (headTitle selectedHead)]

/-- Line 14: `attentionWeights[0][selectedHead]`, `none` for `undefined`. -/
def selectWeights (attentionWeights : List (List (List (List ℚ)))) (selectedHead : Int) :
    Option (List (List ℚ)) :=
  (attentionWeights[0]?).bind (fun batch => index batch selectedHead)

/-- The effect body of lines 7-115, run on the surface `svg`.

* line 8 returns before anything is touched;
* line 11 removes every descendant of the `<svg>`;
* lines 20-24 set the size attributes and append the group `g`;
* line 28 throws when the selected slice is `undefined`, leaving the empty `g`. -/
def render (rt : Runtime) (svg : Svg) (attentionWeights : List (List (List (List ℚ))))
    (tokens : List String) (selectedHead : Int) : Outcome × Svg :=
  if attentionWeights.length = 0 ∨ tokens.length = 0 then (Outcome.done, svg)
  else
    let w := width + margin.left + margin.right
    let h := height + margin.top + margin.bottom
    match selectWeights attentionWeights selectedHead with
    | none =>
      (Outcome.typeError,
        { width := some w, height := some h, children := [⟨(margin.left, margin.top), []⟩] })
    | some weights =>
      (Outcome.done,
        { width := some w, height := some h
          children := [⟨(margin.left, margin.top), draw rt tokens weights selectedHead⟩] })

/-! ## Reading a scene -/

/-- Every child of every top-level group, in document order. -/
def Svg.elems (s : Svg) : List Elem :=
  (s.children.map Group.body).flatten

/-- The cells of a scene. -/
def Svg.rects (s : Svg) : List Rect :=
  s.elems.filterMap (fun e => match e with
    | Elem.rect r => some r
    | _ => none)

/-- The label groups of a scene, each with its `translate`. -/
def Svg.labelGroups (s : Svg) : List (Option (ℚ × ℚ) × List Text) :=
  s.elems.filterMap (fun e => match e with
    | Elem.labels t ts => some (t, ts)
    | _ => none)

/-- The captions and titles of a scene. -/
def Svg.texts (s : Svg) : List Text :=
  s.elems.filterMap (fun e => match e with
    | Elem.text t => some t
    | _ => none)

/-! ## Binary64 evaluation of the colour scale -/

/-- A JavaScript number as line 49 sees it: a finite binary64 value (given by
its exact rational value, the sign of zero dropped), an infinity or `NaN`. -/
inductive F64 where
  | finite (q : ℚ)
  | posInf
  | negInf
  | nan
deriving DecidableEq

/-- Round a rational to the nearest integer, a tie going to the even one. -/
def roundHalfEven (q : ℚ) : ℤ :=
  let f := ⌊q⌋
  let r := q - (f : ℚ)
  if r < 1 / 2 then f
  else if 1 / 2 < r then f + 1
  else if f % 2 = 0 then f else f + 1

/-- The exponent of the spacing of binary64 values around `a > 0`:
`2^(e - 52)` in the binade `[2^e, 2^(e+1))`, and `2^(-1074)` below
`2^(-1022)`. -/
def ulpExp (a : ℚ) : ℤ :=
  max (Int.log 2 a) (-1022) - 52

/-- Round-to-nearest-even of a magnitude `a ≥ 0` onto the binary64 grid, the
exponent range unbounded above. -/
def roundMagnitude (a : ℚ) : ℚ :=
  (roundHalfEven (a / (2 : ℚ) ^ ulpExp a) : ℚ) * (2 : ℚ) ^ ulpExp a

/-- The binary64 result of an operation whose exact result is `x`:
round-to-nearest-even, overflowing to an infinity from `2^1024` on. -/
def fl (x : ℚ) : F64 :=
  if 0 ≤ x then
    (if (2 : ℚ) ^ (1024 : ℕ) ≤ roundMagnitude x then F64.posInf
      else F64.finite (roundMagnitude x))
  else
    (if (2 : ℚ) ^ (1024 : ℕ) ≤ roundMagnitude (-x) then F64.negInf
      else F64.finite (-roundMagnitude (-x)))

/-- The quotient `1 / d` in binary64. -/
def F64.recip : F64 → F64
  | F64.finite d => if d = 0 then F64.posInf else fl (1 / d)
  | F64.posInf => F64.finite 0
  | F64.negInf => F64.finite 0
  | F64.nan => F64.nan

/-- The sign rule for a product with an infinite factor: `NaN` against
zero. -/
def F64.timesInf (a : ℚ) (positive : Bool) : F64 :=
  if a = 0 then F64.nan
  else if (0 < a) = positive then F64.posInf else F64.negInf

/-- The product `a * b` in binary64. -/
def F64.mul : F64 → F64 → F64
  | F64.finite a, F64.finite b => fl (a * b)
  | F64.finite a, F64.posInf => F64.timesInf a true
  | F64.finite a, F64.negInf => F64.timesInf a false
  | F64.posInf, F64.finite b => F64.timesInf b true
  | F64.negInf, F64.finite b => F64.timesInf b false
  | F64.posInf, F64.posInf => F64.posInf
  | F64.negInf, F64.negInf => F64.posInf
  | F64.posInf, F64.negInf => F64.negInf
  | F64.negInf, F64.posInf => F64.negInf
  | F64.nan, _ => F64.nan
  | _, F64.nan => F64.nan

/-- The factor `k10 = t0 === t1 ? 0 : 1 / (t1 - t0)` as binary64 computes
it. -/
def SequentialScale.k10f (s : SequentialScale) : F64 :=
  if s.x0 = s.x1 then F64.finite 0 else F64.recip (fl (s.x1 - s.x0))

/-- The number handed to the interpolator as binary64 computes it:
`k10 === 0 ? 0.5 : (x - t0) * k10`. -/
def SequentialScale.position64 (s : SequentialScale) (x : ℚ) : F64 :=
  if s.k10f = F64.finite 0 then F64.finite (1 / 2)
  else F64.mul (fl (x - s.x0)) s.k10f

/-- The call `colorScale(w)` of line 49 with its argument computed in
binary64; `interpolate` is `d3.interpolateBlues` on JavaScript numbers. -/
def colorScale64 (interpolate : F64 → String) (weights : List (List ℚ)) (w : ℚ) : String :=
  interpolate ((colorDomain weights).position64 w)

/-- The rectangle of lines 44-53 with the fill of line 49 computed in
binary64. -/
def cell64 (rt : Runtime) (interpolate : F64 → String) (tokens : List String)
    (weights : List (List ℚ)) (i j : Nat) (w : ℚ) : Rect :=
  { x := (xScale tokens).coord j
    y := (yScale tokens).coord i
    width := (xScale tokens).bandwidth
    height := (yScale tokens).bandwidth
    fill := colorScale64 interpolate weights w
    stroke := "#fff"
    strokeWidth := 1 / 2
    title := tooltip rt tokens i j w }

/-- The double loop of lines 42-55 emitting `cell64`. -/
def cells64 (rt : Runtime) (interpolate : F64 → String) (tokens : List String)
    (weights : List (List ℚ)) : List Rect :=
  (weights.mapIdx (fun i row =>
    row.mapIdx (fun j w => cell64 rt interpolate tokens weights i j w))).flatten

/-- Lines 42-113 with the cells of `cells64`. -/
def draw64 (rt : Runtime) (interpolate : F64 → String) (tokens : List String)
    (weights : List (List ℚ)) (selectedHead : Int) : List Elem :=
  (cells64 rt interpolate tokens weights).map Elem.rect ++
    [Elem.labels (some (0, height)) (xLabels tokens),
     Elem.labels none (yLabels tokens),
     Elem.text xCaption, Elem.text yCaption, Elem.text (headTitle selectedHead)]

/-- The effect body of lines 7-115 with the colour scale of lines 27-28 and 49
evaluated in binary64. -/
def render64 (rt : Runtime) (interpolate : F64 → String) (svg : Svg)
    (attentionWeights : List (List (List (List ℚ))))
    (tokens : List String) (selectedHead : Int) : Outcome × Svg :=
  if attentionWeights.length = 0 ∨ tokens.length = 0 then (Outcome.done, svg)
  else
    let w := width + margin.left + margin.right
    let h := height + margin.top + margin.bottom
    match selectWeights attentionWeights selectedHead with
    | none =>
      (Outcome.typeError,
        { width := some w, height := some h, children := [⟨(margin.left, margin.top), []⟩] })
    | some weights =>
      (Outcome.done,
        { width := some w, height := some h
          children :=
            [⟨(margin.left, margin.top), draw64 rt interpolate tokens weights selectedHead⟩] })

/-! ## Concrete inputs -/

/-- A runtime for the concrete examples; the text it produces is never
inspected there. -/
def sampleRuntime : Runtime :=
  { numberToString := fun _ => "", interpolateBlues := fun _ => "" }

/-- The three tokens of the tooltip example. -/
def tokens3 : List String := ["The", "cat", "sat"]

/-- A 3 x 3 slice with `W[0][1] = 0.1234567`. -/
def weights3 : List (List ℚ) :=
  [[1 / 2, 1234567 / 10000000, 3765433 / 10000000],
   [1 / 4, 1 / 2, 1 / 4],
   [1 / 4, 1 / 4, 1 / 2]]

/-- The six tokens of the end-to-end scenario. -/
def tokens6 : List String := ["The", "cat", "sat", "on", "the", "mat"]

/-- The 6 x 6 slice with 0.5 on the diagonal and 0.1 elsewhere. -/
def diag6 : List (List ℚ) :=
  [[1 / 2, 1 / 10, 1 / 10, 1 / 10, 1 / 10, 1 / 10],
   [1 / 10, 1 / 2, 1 / 10, 1 / 10, 1 / 10, 1 / 10],
   [1 / 10, 1 / 10, 1 / 2, 1 / 10, 1 / 10, 1 / 10],
   [1 / 10, 1 / 10, 1 / 10, 1 / 2, 1 / 10, 1 / 10],
   [1 / 10, 1 / 10, 1 / 10, 1 / 10, 1 / 2, 1 / 10],
   [1 / 10, 1 / 10, 1 / 10, 1 / 10, 1 / 10, 1 / 2]]

/-- An all-zero 3 x 3 slice. -/
def zeros3 : List (List ℚ) :=
  [[0, 0, 0], [0, 0, 0], [0, 0, 0]]

/-- Six query rows whose key axis has length 5. -/
def short6 : List (List ℚ) :=
  List.replicate 6 [1 / 5, 1 / 5, 1 / 5, 1 / 5, 1 / 5]

/-- A tensor with one batch entry and four heads over `tokens3`. -/
def fourHeads : List (List (List (List ℚ))) :=
  [[weights3,
    [[1, 0, 0], [0, 1, 0], [0, 0, 1]],
    [[0, 0, 1], [0, 1, 0], [1, 0, 0]],
    [[1 / 3, 1 / 3, 1 / 3], [1 / 3, 1 / 3, 1 / 3], [1 / 3, 1 / 3, 1 / 3]]]]

/-- A colour ramp for the concrete examples; the text it produces is never
inspected there. -/
def sampleInterpolate : F64 → String := fun _ => ""

/-- The binary64 number written `0.21`. -/
def d021 : ℚ := 7566047373982433 / 36028797018963968

/-- The binary64 number that follows `0.21`. -/
def d021next : ℚ := 3783023686991217 / 18014398509481984

/-- The binary64 number written `0.41`. -/
def d041 : ℚ := 7385903388887613 / 18014398509481984

/-- Two tokens. -/
def tokens2 : List String := ["The", "cat"]

/-- A 2 x 2 slice of binary64 numbers with maximum `0.41`. -/
def near41 : List (List ℚ) :=
  [[d021, d021next], [d041, d021]]

/-- The subnormal binary64 number `2^(-1030)`. -/
def dTiny : ℚ := (2 : ℚ) ^ (-1030 : ℤ)

/-- A 2 x 2 slice whose maximum is `dTiny`, below `2^(-1022)`. -/
def tinyMax : List (List ℚ) :=
  [[0, dTiny], [0, 0]]

/-- The binary64 number `0x1.afbd67e6ee61ep+1023`. -/
def dHuge : ℚ := 7595248057247262 * (2 : ℚ) ^ (971 : ℤ)

/-- A 2 x 2 slice whose maximum is `dHuge`, above `2^1022`. -/
def hugeMax : List (List ℚ) :=
  [[dHuge, 0], [0, 0]]

/-! ## Stated properties -/

/-- The band layout of one axis as the specification words it, for `N` bands
over an axis of length `extent`: the step is `extent / (N + 0.05)`, a band is
`0.95` steps wide, band `j` starts at `0.05 * step + j * step`, adjacent
bands are separated by the same strictly positive gap, and the first and the
last band lie strictly inside the axis. -/
def BandLayout (s : BandScale) (N : Nat) (extent : ℚ) : Prop :=
  s.step = extent / ((N : ℚ) + 5 / 100) ∧
  s.bandwidth = 95 / 100 * s.step ∧
  (∀ j, j < N → s.coord j = 5 / 100 * s.step + (j : ℚ) * s.step) ∧
  (∀ j, j + 1 < N → s.coord (j + 1) - (s.coord j + s.bandwidth) = 5 / 100 * s.step) ∧
  0 < 5 / 100 * s.step ∧
  0 < s.coord 0 ∧
  s.coord (N - 1) + s.bandwidth < extent

/-! ## Lists -/

theorem getElem?_flatten_uniform {α : Type} (m : Nat) :
    ∀ (L : List (List α)), (∀ row ∈ L, row.length = m) → ∀ i j, j < m →
      L.flatten[i * m + j]? = (L[i]?).bind (fun row => row[j]?) := by
  intro L
  induction L with
  | nil => intro _ i j _; simp
  | cons r L ih =>
    intro h i j hj
    have hr : r.length = m := h r (List.mem_cons_self _ _)
    have hL : ∀ row ∈ L, row.length = m := fun row hrow => h row (List.mem_cons_of_mem _ hrow)
    cases i with
    | zero =>
      simp only [List.flatten_cons, Nat.zero_mul, Nat.zero_add, List.getElem?_cons_zero,
        Option.some_bind]
      exact List.getElem?_append_left (by omega)
    | succ i =>
      have e : (i + 1) * m + j = r.length + (i * m + j) := by rw [hr]; ring
      simp only [List.flatten_cons, List.getElem?_cons_succ, e]
      rw [List.getElem?_append_right (by omega)]
      simpa using ih hL i j hj

theorem length_flatten_uniform {α : Type} (m : Nat) :
    ∀ (L : List (List α)), (∀ row ∈ L, row.length = m) → L.flatten.length = L.length * m := by
  intro L
  induction L with
  | nil => intro _; simp
  | cons r L ih =>
    intro h
    have hr : r.length = m := h r (List.mem_cons_self _ _)
    have hL : ∀ row ∈ L, row.length = m := fun row hrow => h row (List.mem_cons_of_mem _ hrow)
    simp [ih hL, hr]; ring

theorem mem_mapIdx_elim {α β : Type} {f : Nat → α → β} {l : List α} {b : β}
    (h : b ∈ l.mapIdx f) : ∃ i a, l[i]? = some a ∧ b = f i a := by
  obtain ⟨i, hi⟩ := List.mem_iff_getElem?.mp h
  rw [List.getElem?_mapIdx] at hi
  cases hl : l[i]? with
  | none => simp [hl] at hi
  | some a => exact ⟨i, a, hl, by simpa [hl] using hi.symm⟩

theorem mem_mapIdx_intro {α β : Type} {f : Nat → α → β} {l : List α} {i : Nat} {a : α}
    (h : l[i]? = some a) : f i a ∈ l.mapIdx f := by
  apply List.mem_iff_getElem?.mpr
  exact ⟨i, by rw [List.getElem?_mapIdx, h]; rfl⟩

/-! ## The band scale at the call site -/

theorem width_eq : width = 390 := by norm_num [width, margin]

theorem height_eq : height = 390 := by norm_num [height, margin]

theorem scaleBand_step (n : Nat) (hn : 1 ≤ n) :
    (scaleBand n 0 390 (5 / 100)).step = 390 / ((n : ℚ) + 1 / 20) := by
  have h1 : (1 : ℚ) ≤ (n : ℚ) := by exact_mod_cast hn
  have hmin : min (1 : ℚ) (5 / 100) = 5 / 100 := min_eq_right (by norm_num)
  have hmax : max (1 : ℚ) ((n : ℚ) - 5 / 100 + 5 / 100 * 2) = (n : ℚ) + 1 / 20 := by
    rw [max_eq_right (by linarith)]; ring
  simp only [scaleBand, hmin, hmax]
  norm_num

theorem scaleBand_bandwidth (n : Nat) (r0 r1 : ℚ) :
    (scaleBand n r0 r1 (5 / 100)).bandwidth = 19 / 20 * (scaleBand n r0 r1 (5 / 100)).step := by
  have hmin : min (1 : ℚ) (5 / 100) = 5 / 100 := min_eq_right (by norm_num)
  simp only [scaleBand, hmin]
  ring

theorem scaleBand_values (n : Nat) (hn : 1 ≤ n) :
    (scaleBand n 0 390 (5 / 100)).values =
      (List.range n).map (fun (i : Nat) =>
        1 / 20 * (scaleBand n 0 390 (5 / 100)).step +
          (i : ℚ) * (scaleBand n 0 390 (5 / 100)).step) := by
  have h1 : (1 : ℚ) ≤ (n : ℚ) := by exact_mod_cast hn
  have hmin : min (1 : ℚ) (5 / 100) = 5 / 100 := min_eq_right (by norm_num)
  have hmax : max (1 : ℚ) ((n : ℚ) - 5 / 100 + 5 / 100 * 2) = (n : ℚ) + 1 / 20 := by
    rw [max_eq_right (by linarith)]; ring
  have hpos : (n : ℚ) + 1 / 20 ≠ 0 := by positivity
  have hrev : ¬ ((390 : ℚ) < 0) := by norm_num
  simp only [scaleBand, hmin, hmax, hrev, if_false]
  apply List.map_congr_left
  intro i _
  field_simp
  ring

theorem scaleBand_coord (n j : Nat) (hj : j < n) :
    (scaleBand n 0 390 (5 / 100)).coord j =
      1 / 20 * (scaleBand n 0 390 (5 / 100)).step +
        (j : ℚ) * (scaleBand n 0 390 (5 / 100)).step := by
  have hn : 1 ≤ n := by omega
  simp only [BandScale.coord, BandScale.lookup]
  rw [scaleBand_values n hn]
  rw [List.getElem?_map, List.getElem?_range hj]
  rfl

theorem scaleBand_coord_unknown (n j : Nat) (r0 r1 p : ℚ) (hj : n ≤ j) :
    (scaleBand n r0 r1 p).coord j = 0 := by
  simp only [BandScale.coord, BandScale.lookup, scaleBand]
  rw [List.getElem?_eq_none]
  · rfl
  · split <;>
      simpa only [List.length_reverse, List.length_map, List.length_range] using hj

theorem scaleBand_step_pos (n : Nat) (hn : 1 ≤ n) :
    0 < (scaleBand n 0 390 (5 / 100)).step := by
  rw [scaleBand_step n hn]
  positivity

theorem xScale_eq (tokens : List String) :
    xScale tokens = scaleBand tokens.length 0 390 (5 / 100) := by
  rw [xScale, width_eq]

theorem yScale_eq (tokens : List String) :
    yScale tokens = scaleBand tokens.length 0 390 (5 / 100) := by
  rw [yScale, height_eq]

/-! ## The effect body, case by case -/

theorem selectWeights_ne_nil {aw : List (List (List (List ℚ)))} {h : Int} {W : List (List ℚ)}
    (hsel : selectWeights aw h = some W) : aw.length ≠ 0 := by
  intro h0
  have : aw = [] := List.length_eq_zero.mp h0
  subst this
  simp [selectWeights] at hsel

theorem render_done (rt : Runtime) (svg : Svg) (aw : List (List (List (List ℚ))))
    (tokens : List String) (h : Int) (W : List (List ℚ))
    (htok : tokens ≠ []) (hsel : selectWeights aw h = some W) :
    render rt svg aw tokens h =
      (Outcome.done,
        { width := some 500, height := some 500
          children := [⟨(90, 20), draw rt tokens W h⟩] }) := by
  have h1 : ¬ (aw.length = 0 ∨ tokens.length = 0) := by
    intro hor
    rcases hor with h0 | h0
    · exact selectWeights_ne_nil hsel h0
    · exact htok (List.length_eq_zero.mp h0)
  have hw : width + margin.left + margin.right = 500 := by norm_num [width, margin]
  have hh : height + margin.top + margin.bottom = 500 := by norm_num [height, margin]
  simp only [render, if_neg h1, hsel, hw, hh]
  rfl

theorem render_typeError (rt : Runtime) (svg : Svg) (aw : List (List (List (List ℚ))))
    (tokens : List String) (h : Int)
    (htok : tokens ≠ []) (haw : aw ≠ []) (hsel : selectWeights aw h = none) :
    render rt svg aw tokens h =
      (Outcome.typeError,
        { width := some 500, height := some 500, children := [⟨(90, 20), []⟩] }) := by
  have h1 : ¬ (aw.length = 0 ∨ tokens.length = 0) := by
    intro hor
    rcases hor with h0 | h0
    · exact haw (List.length_eq_zero.mp h0)
    · exact htok (List.length_eq_zero.mp h0)
  have hw : width + margin.left + margin.right = 500 := by norm_num [width, margin]
  have hh : height + margin.top + margin.bottom = 500 := by norm_num [height, margin]
  simp only [render, if_neg h1, hsel, hw, hh]
  rfl

theorem rects_draw (rt : Runtime) (tokens : List String) (W : List (List ℚ)) (h : Int)
    (a b : Option ℚ) (t : ℚ × ℚ) :
    Svg.rects { width := a, height := b, children := [⟨t, draw rt tokens W h⟩] } =
      cells rt tokens W := by
  have e : ((fun e : Elem => match e with
      | Elem.rect r => some r
      | _ => none) ∘ Elem.rect) = some := rfl
  simp [Svg.rects, Svg.elems, draw, List.filterMap_append, List.filterMap_map, e]

theorem labelGroups_draw (rt : Runtime) (tokens : List String) (W : List (List ℚ)) (h : Int)
    (a b : Option ℚ) (t : ℚ × ℚ) :
    Svg.labelGroups { width := a, height := b, children := [⟨t, draw rt tokens W h⟩] } =
      [(some (0, height), xLabels tokens), (none, yLabels tokens)] := by
  simp [Svg.labelGroups, Svg.elems, draw, List.filterMap_append, List.filterMap_map]

theorem texts_draw (rt : Runtime) (tokens : List String) (W : List (List ℚ)) (h : Int)
    (a b : Option ℚ) (t : ℚ × ℚ) :
    Svg.texts { width := a, height := b, children := [⟨t, draw rt tokens W h⟩] } =
      [xCaption, yCaption, headTitle h] := by
  simp [Svg.texts, Svg.elems, draw, List.filterMap_append, List.filterMap_map]

theorem cells_length (rt : Runtime) (tokens : List String) (W : List (List ℚ)) :
    (cells rt tokens W).length = (W.map List.length).sum := by
  rw [cells, List.length_flatten]
  congr 1
  apply List.ext_getElem?
  intro i
  simp only [List.getElem?_map, List.getElem?_mapIdx]
  cases W[i]? <;> simp

theorem cells_length_uniform (rt : Runtime) (tokens : List String) (W : List (List ℚ))
    (m : Nat) (hcols : ∀ row ∈ W, row.length = m) :
    (cells rt tokens W).length = W.length * m := by
  rw [cells, length_flatten_uniform m, List.length_mapIdx]
  intro r hr
  obtain ⟨i, row, hrow, rfl⟩ := mem_mapIdx_elim hr
  rw [List.length_mapIdx]
  exact hcols row (List.getElem?_mem hrow)

theorem cells_getElem? (rt : Runtime) (tokens : List String) (W : List (List ℚ))
    (m : Nat) (hcols : ∀ row ∈ W, row.length = m) (i j : Nat) (hj : j < m)
    (w : ℚ) (hw : (W[i]?).bind (fun row => row[j]?) = some w) :
    (cells rt tokens W)[i * m + j]? = some (cell rt tokens W i j w) := by
  rw [cells, getElem?_flatten_uniform m _ _ i j hj]
  · rw [List.getElem?_mapIdx]
    cases hi : W[i]? with
    | none => simp [hi] at hw
    | some row =>
      simp only [hi, Option.some_bind] at hw
      simp [List.getElem?_mapIdx, hw]
  · intro r hr
    obtain ⟨i, row, hrow, rfl⟩ := mem_mapIdx_elim hr
    rw [List.length_mapIdx]
    exact hcols row (List.getElem?_mem hrow)

/-! ## Binary64 rounding -/

theorem roundHalfEven_floor_le (q : ℚ) : ⌊q⌋ ≤ roundHalfEven q := by
  unfold roundHalfEven
  simp only []
  split_ifs <;> omega

theorem roundHalfEven_le_floor_succ (q : ℚ) : roundHalfEven q ≤ ⌊q⌋ + 1 := by
  unfold roundHalfEven
  simp only []
  split_ifs <;> omega

theorem roundHalfEven_sub_le (q : ℚ) : ((roundHalfEven q : ℤ) : ℚ) - q ≤ 1 / 2 := by
  have h1 := Int.floor_le q
  have h2 := Int.lt_floor_add_one q
  unfold roundHalfEven
  simp only []
  split_ifs with ha hb hc
  · linarith
  · push_cast; linarith
  · linarith
  · push_cast; linarith

theorem sub_roundHalfEven_le (q : ℚ) : q - ((roundHalfEven q : ℤ) : ℚ) ≤ 1 / 2 := by
  have h1 := Int.floor_le q
  have h2 := Int.lt_floor_add_one q
  unfold roundHalfEven
  simp only []
  split_ifs with ha hb hc
  · linarith
  · push_cast; linarith
  · linarith
  · push_cast; linarith

theorem roundHalfEven_intCast (n : ℤ) : roundHalfEven (n : ℚ) = n := by
  unfold roundHalfEven
  simp only [Int.floor_intCast, sub_self]
  rw [if_pos (by norm_num)]

theorem roundHalfEven_mono {p q : ℚ} (h : p ≤ q) : roundHalfEven p ≤ roundHalfEven q := by
  have hfl : ⌊p⌋ ≤ ⌊q⌋ := Int.floor_mono h
  rcases lt_or_eq_of_le hfl with hlt | heq
  · have h1 := roundHalfEven_le_floor_succ p
    have h2 := roundHalfEven_floor_le q
    omega
  · have hr : p - (⌊p⌋ : ℚ) ≤ q - (⌊q⌋ : ℚ) := by rw [heq]; linarith
    unfold roundHalfEven
    simp only []
    rw [heq] at hr ⊢
    split_ifs <;> first | omega | (exfalso; linarith)

theorem two_zpow_pos (z : ℤ) : (0 : ℚ) < (2 : ℚ) ^ z := zpow_pos (by norm_num) z

theorem two_zpow_mono {m n : ℤ} (h : m ≤ n) : (2 : ℚ) ^ m ≤ (2 : ℚ) ^ n :=
  zpow_le_zpow_right₀ (by norm_num) h

theorem two_zpow_add (m n : ℤ) : (2 : ℚ) ^ (m + n) = (2 : ℚ) ^ m * (2 : ℚ) ^ n :=
  zpow_add₀ (by norm_num) m n

theorem log_two_spec {a : ℚ} (ha : 0 < a) :
    (2 : ℚ) ^ Int.log 2 a ≤ a ∧ a < (2 : ℚ) ^ (Int.log 2 a + 1) := by
  have h1 := Int.zpow_log_le_self (b := 2) (r := a) (by norm_num) ha
  have h2 := Int.lt_zpow_succ_log_self (b := 2) (R := ℚ) (by norm_num) a
  simp only [Nat.cast_ofNat] at h1 h2
  exact ⟨h1, h2⟩

theorem log_two_eq {a : ℚ} {e : ℤ} (h1 : (2 : ℚ) ^ e ≤ a) (h2 : a < (2 : ℚ) ^ (e + 1)) :
    Int.log 2 a = e := by
  have ha : 0 < a := lt_of_lt_of_le (two_zpow_pos e) h1
  have hle : e ≤ Int.log 2 a := by
    apply (Int.zpow_le_iff_le_log (b := 2) (R := ℚ) (by norm_num) ha).mp
    simpa only [Nat.cast_ofNat] using h1
  have hlt : Int.log 2 a < e + 1 := by
    apply (Int.lt_zpow_iff_log_lt (b := 2) (R := ℚ) (by norm_num) ha).mp
    simpa only [Nat.cast_ofNat] using h2
  omega

theorem ulpExp_eq {a : ℚ} {e : ℤ} (h1 : (2 : ℚ) ^ e ≤ a) (h2 : a < (2 : ℚ) ^ (e + 1))
    (he : -1022 ≤ e) : ulpExp a = e - 52 := by
  rw [ulpExp, log_two_eq h1 h2, max_eq_left he]

theorem ulpExp_ge (a : ℚ) : -1074 ≤ ulpExp a := by
  have := le_max_right (Int.log 2 a) (-1022)
  rw [ulpExp]
  omega

theorem lt_top_of_pos {a : ℚ} (ha : 0 < a) : a < (2 : ℚ) ^ (ulpExp a + 53) := by
  have h := (log_two_spec ha).2
  have hle : Int.log 2 a + 1 ≤ ulpExp a + 53 := by
    have := le_max_left (Int.log 2 a) (-1022)
    rw [ulpExp]
    omega
  exact lt_of_lt_of_le h (two_zpow_mono hle)

theorem bot_le_of_normal {a : ℚ} (ha : (2 : ℚ) ^ (-1022 : ℤ) ≤ a) :
    (2 : ℚ) ^ (ulpExp a + 52) ≤ a := by
  have hpos : 0 < a := lt_of_lt_of_le (two_zpow_pos _) ha
  have hlog : (-1022 : ℤ) ≤ Int.log 2 a := by
    apply (Int.zpow_le_iff_le_log (b := 2) (R := ℚ) (by norm_num) hpos).mp
    simpa only [Nat.cast_ofNat] using ha
  have h := (log_two_spec hpos).1
  have he : ulpExp a + 52 = Int.log 2 a := by
    rw [ulpExp, max_eq_left hlog]
    omega
  rw [he]
  exact h

theorem roundMagnitude_zero : roundMagnitude 0 = 0 := by
  rw [roundMagnitude, zero_div]
  have : roundHalfEven (0 : ℚ) = 0 := by
    have := roundHalfEven_intCast 0
    simpa using this
  rw [this]
  simp

theorem roundMagnitude_nonneg {a : ℚ} (ha : 0 ≤ a) : 0 ≤ roundMagnitude a := by
  rw [roundMagnitude]
  have hq : (0 : ℚ) ≤ a / (2 : ℚ) ^ ulpExp a := div_nonneg ha (le_of_lt (two_zpow_pos _))
  have h0 : roundHalfEven ((0 : ℤ) : ℚ) ≤ roundHalfEven (a / (2 : ℚ) ^ ulpExp a) :=
    roundHalfEven_mono (by simpa using hq)
  rw [roundHalfEven_intCast] at h0
  have : (0 : ℚ) ≤ ((roundHalfEven (a / (2 : ℚ) ^ ulpExp a) : ℤ) : ℚ) := by exact_mod_cast h0
  exact mul_nonneg this (le_of_lt (two_zpow_pos _))

theorem roundMagnitude_le_top {a : ℚ} (ha : 0 < a) :
    roundMagnitude a ≤ (2 : ℚ) ^ (ulpExp a + 53) := by
  have hu := two_zpow_pos (ulpExp a)
  have hlt := lt_top_of_pos ha
  rw [two_zpow_add] at hlt
  have hq : a / (2 : ℚ) ^ ulpExp a ≤ (((2 : ℤ) ^ (53 : ℕ) : ℤ) : ℚ) := by
    rw [div_le_iff₀ hu]
    have e : ((((2 : ℤ) ^ (53 : ℕ) : ℤ)) : ℚ) = (2 : ℚ) ^ (53 : ℤ) := by norm_num
    rw [e, mul_comm]
    linarith
  have hr := roundHalfEven_mono hq
  rw [roundHalfEven_intCast] at hr
  have hr2 : ((roundHalfEven (a / (2 : ℚ) ^ ulpExp a) : ℤ) : ℚ) ≤ (2 : ℚ) ^ (53 : ℤ) := by
    have : ((roundHalfEven (a / (2 : ℚ) ^ ulpExp a) : ℤ) : ℚ) ≤
        ((((2 : ℤ) ^ (53 : ℕ) : ℤ)) : ℚ) := by exact_mod_cast hr
    have e : ((((2 : ℤ) ^ (53 : ℕ) : ℤ)) : ℚ) = (2 : ℚ) ^ (53 : ℤ) := by norm_num
    rw [e] at this
    exact this
  rw [roundMagnitude, two_zpow_add, mul_comm ((2 : ℚ) ^ ulpExp a)]
  exact mul_le_mul_of_nonneg_right hr2 (le_of_lt hu)

theorem bot_le_roundMagnitude {a : ℚ} (ha : (2 : ℚ) ^ (-1022 : ℤ) ≤ a) :
    (2 : ℚ) ^ (ulpExp a + 52) ≤ roundMagnitude a := by
  have hu := two_zpow_pos (ulpExp a)
  have hge := bot_le_of_normal ha
  rw [two_zpow_add] at hge
  have hq : (((2 : ℤ) ^ (52 : ℕ) : ℤ) : ℚ) ≤ a / (2 : ℚ) ^ ulpExp a := by
    rw [le_div_iff₀ hu]
    have e : ((((2 : ℤ) ^ (52 : ℕ) : ℤ)) : ℚ) = (2 : ℚ) ^ (52 : ℤ) := by norm_num
    rw [e, mul_comm]
    linarith
  have hr := roundHalfEven_mono hq
  rw [roundHalfEven_intCast] at hr
  have hr2 : (2 : ℚ) ^ (52 : ℤ) ≤ ((roundHalfEven (a / (2 : ℚ) ^ ulpExp a) : ℤ) : ℚ) := by
    have : ((((2 : ℤ) ^ (52 : ℕ) : ℤ)) : ℚ) ≤
        ((roundHalfEven (a / (2 : ℚ) ^ ulpExp a) : ℤ) : ℚ) := by exact_mod_cast hr
    have e : ((((2 : ℤ) ^ (52 : ℕ) : ℤ)) : ℚ) = (2 : ℚ) ^ (52 : ℤ) := by norm_num
    rw [e] at this
    exact this
  rw [roundMagnitude, two_zpow_add, mul_comm ((2 : ℚ) ^ ulpExp a)]
  exact mul_le_mul_of_nonneg_right hr2 (le_of_lt hu)

theorem roundMagnitude_sub_le (a : ℚ) :
    roundMagnitude a - a ≤ (2 : ℚ) ^ ulpExp a / 2 := by
  have hu := two_zpow_pos (ulpExp a)
  have h := roundHalfEven_sub_le (a / (2 : ℚ) ^ ulpExp a)
  have h2 := mul_le_mul_of_nonneg_right h (le_of_lt hu)
  rw [sub_mul, div_mul_cancel₀ a (ne_of_gt hu)] at h2
  rw [roundMagnitude]
  linarith

theorem ulpExp_mono {a b : ℚ} (ha : 0 < a) (hab : a ≤ b) : ulpExp a ≤ ulpExp b := by
  have h := Int.log_mono_right (b := 2) ha hab
  have := max_le_max h (le_refl (-1022 : ℤ))
  rw [ulpExp, ulpExp]
  omega

theorem normal_of_ulpExp_gt {b : ℚ} (hb : 0 < b) (h : -1074 < ulpExp b) :
    (2 : ℚ) ^ (-1022 : ℤ) ≤ b := by
  have hlog : (-1022 : ℤ) ≤ Int.log 2 b := by
    rw [ulpExp] at h
    rcases le_total (Int.log 2 b) (-1022) with hle | hle
    · rw [max_eq_right hle] at h; omega
    · exact hle
  exact le_trans (two_zpow_mono hlog) (log_two_spec hb).1

theorem roundMagnitude_mono {a b : ℚ} (ha : 0 ≤ a) (hab : a ≤ b) :
    roundMagnitude a ≤ roundMagnitude b := by
  rcases eq_or_lt_of_le ha with h0 | hpos
  · rw [← h0, roundMagnitude_zero]
    exact roundMagnitude_nonneg (le_trans ha hab)
  · have hb : 0 < b := lt_of_lt_of_le hpos hab
    rcases eq_or_lt_of_le (ulpExp_mono hpos hab) with he | hlt
    · rw [roundMagnitude, roundMagnitude, ← he]
      have hu := two_zpow_pos (ulpExp a)
      have hq : a / (2 : ℚ) ^ ulpExp a ≤ b / (2 : ℚ) ^ ulpExp a :=
        div_le_div_of_nonneg_right hab (le_of_lt hu)
      have hr := roundHalfEven_mono hq
      have : ((roundHalfEven (a / (2 : ℚ) ^ ulpExp a) : ℤ) : ℚ) ≤
          ((roundHalfEven (b / (2 : ℚ) ^ ulpExp a) : ℤ) : ℚ) := by exact_mod_cast hr
      exact mul_le_mul_of_nonneg_right this (le_of_lt hu)
    · have hnorm : (2 : ℚ) ^ (-1022 : ℤ) ≤ b :=
        normal_of_ulpExp_gt hb (lt_of_le_of_lt (ulpExp_ge a) hlt)
      have h1 := roundMagnitude_le_top hpos
      have h2 := bot_le_roundMagnitude hnorm
      have h3 : (2 : ℚ) ^ (ulpExp a + 53) ≤ (2 : ℚ) ^ (ulpExp b + 52) :=
        two_zpow_mono (by omega)
      linarith

theorem roundMagnitude_zpow (n : ℤ) (hn : -1074 ≤ n) :
    roundMagnitude ((2 : ℚ) ^ n) = (2 : ℚ) ^ n := by
  have hlog : Int.log 2 ((2 : ℚ) ^ n) = n := by
    have := Int.log_zpow (b := 2) (R := ℚ) (by norm_num) n
    simpa only [Nat.cast_ofNat] using this
  have hu : ulpExp ((2 : ℚ) ^ n) ≤ n := by
    rw [ulpExp, hlog]
    rcases le_total n (-1022) with h | h
    · rw [max_eq_right h]; omega
    · rw [max_eq_left h]; omega
  obtain ⟨d, hd⟩ : ∃ d : ℕ, n = ulpExp ((2 : ℚ) ^ n) + (d : ℤ) :=
    ⟨(n - ulpExp ((2 : ℚ) ^ n)).toNat, by omega⟩
  have hq : (2 : ℚ) ^ n / (2 : ℚ) ^ ulpExp ((2 : ℚ) ^ n) = ((((2 : ℤ) ^ d : ℤ)) : ℚ) := by
    have hu0 := two_zpow_pos (ulpExp ((2 : ℚ) ^ n))
    rw [div_eq_iff (ne_of_gt hu0)]
    nth_rewrite 1 [hd]
    rw [two_zpow_add, mul_comm]
    congr 1
    push_cast
    rw [zpow_natCast]
  rw [roundMagnitude, hq, roundHalfEven_intCast, ← hq,
    div_mul_cancel₀ _ (ne_of_gt (two_zpow_pos _))]

theorem fl_of_nonneg {x : ℚ} (hx : 0 ≤ x) (hlt : roundMagnitude x < (2 : ℚ) ^ (1024 : ℕ)) :
    fl x = F64.finite (roundMagnitude x) := by
  rw [fl, if_pos hx, if_neg (not_le.mpr hlt)]

theorem fl_overflow {x : ℚ} (hx : 0 ≤ x) (hge : (2 : ℚ) ^ (1024 : ℕ) ≤ roundMagnitude x) :
    fl x = F64.posInf := by
  rw [fl, if_pos hx, if_pos hge]

theorem roundHalfEven_of_lt {q : ℚ} {f : ℤ} (h1 : (f : ℚ) ≤ q) (h2 : q - (f : ℚ) < 1 / 2) :
    roundHalfEven q = f := by
  have hf : ⌊q⌋ = f := by
    rw [Int.floor_eq_iff]
    exact ⟨h1, by linarith⟩
  unfold roundHalfEven
  simp only [hf]
  rw [if_pos h2]

theorem roundHalfEven_of_gt {q : ℚ} {f : ℤ} (h1 : q < (f : ℚ) + 1) (h2 : 1 / 2 < q - (f : ℚ)) :
    roundHalfEven q = f + 1 := by
  have hf : ⌊q⌋ = f := by
    rw [Int.floor_eq_iff]
    exact ⟨by linarith, h1⟩
  unfold roundHalfEven
  simp only [hf]
  rw [if_neg (not_lt.mpr (le_of_lt h2)), if_pos h2]

theorem roundHalfEven_of_tie {q : ℚ} {f : ℤ} (h : q = (f : ℚ) + 1 / 2) (he : f % 2 = 0) :
    roundHalfEven q = f := by
  have hf : ⌊q⌋ = f := by
    rw [Int.floor_eq_iff]
    exact ⟨by linarith, by linarith⟩
  have hr : q - (f : ℚ) = 1 / 2 := by linarith
  unfold roundHalfEven
  simp only [hf, hr]
  rw [if_neg (lt_irrefl _), if_neg (lt_irrefl _), if_pos he]

theorem roundMagnitude_one_plus_half_ulp :
    roundMagnitude (1 + (2 : ℚ) ^ (-53 : ℤ)) = 1 := by
  have hu : ulpExp (1 + (2 : ℚ) ^ (-53 : ℤ)) = 0 - 52 :=
    ulpExp_eq (by norm_num) (by norm_num) (by norm_num)
  have hr : roundHalfEven ((1 + (2 : ℚ) ^ (-53 : ℤ)) / (2 : ℚ) ^ ((0 : ℤ) - 52)) =
      (2 : ℤ) ^ (52 : ℕ) :=
    roundHalfEven_of_tie (by norm_num) (by norm_num)
  rw [roundMagnitude, hu, hr]
  norm_num

theorem recip_bounds {M : ℚ} (hlo : (2 : ℚ) ^ (-1022 : ℤ) ≤ M) (hhi : M ≤ (2 : ℚ) ^ (1022 : ℤ)) :
    (2 : ℚ) ^ (-1022 : ℤ) ≤ roundMagnitude (1 / M) ∧
    roundMagnitude (1 / M) ≤ (2 : ℚ) ^ (1022 : ℤ) ∧
    M * roundMagnitude (1 / M) ≤ 1 + (2 : ℚ) ^ (-53 : ℤ) := by
  have hM : 0 < M := lt_of_lt_of_le (two_zpow_pos _) hlo
  have hinv_lo : (2 : ℚ) ^ (-1022 : ℤ) ≤ 1 / M := by
    rw [le_div_iff₀ hM]
    have : (2 : ℚ) ^ (-1022 : ℤ) * (2 : ℚ) ^ (1022 : ℤ) = 1 := by
      rw [← two_zpow_add]; norm_num
    have h2 := mul_le_mul_of_nonneg_left hhi (le_of_lt (two_zpow_pos (-1022)))
    linarith
  have hinv_hi : 1 / M ≤ (2 : ℚ) ^ (1022 : ℤ) := by
    rw [div_le_iff₀ hM]
    have : (2 : ℚ) ^ (1022 : ℤ) * (2 : ℚ) ^ (-1022 : ℤ) = 1 := by
      rw [← two_zpow_add]; norm_num
    have h2 := mul_le_mul_of_nonneg_left hlo (le_of_lt (two_zpow_pos 1022))
    linarith
  have hinv_pos : 0 < 1 / M := lt_of_lt_of_le (two_zpow_pos _) hinv_lo
  refine ⟨?_, ?_, ?_⟩
  · have := roundMagnitude_mono (le_of_lt (two_zpow_pos (-1022))) hinv_lo
    rwa [roundMagnitude_zpow _ (by norm_num)] at this
  · have := roundMagnitude_mono (le_of_lt hinv_pos) hinv_hi
    rwa [roundMagnitude_zpow _ (by norm_num)] at this
  · have herr := roundMagnitude_sub_le (1 / M)
    have hbot := bot_le_of_normal hinv_lo
    rw [two_zpow_add] at hbot
    have h52 : (2 : ℚ) ^ (52 : ℤ) = 4503599627370496 := by norm_num
    have h53 : (2 : ℚ) ^ (-53 : ℤ) = 1 / 9007199254740992 := by norm_num
    rw [h52] at hbot
    rw [h53]
    have hK : roundMagnitude (1 / M) ≤ 1 / M * (1 + 1 / 9007199254740992) := by
      have hu := two_zpow_pos (ulpExp (1 / M))
      linarith
    have h3 := mul_le_mul_of_nonneg_left hK (le_of_lt hM)
    have h4 : M * (1 / M * (1 + 1 / 9007199254740992)) = 1 + 1 / 9007199254740992 := by
      field_simp
      ring
    linarith

theorem lt_overflow_of_le {r : ℚ} (h : r ≤ (2 : ℚ) ^ (1022 : ℤ)) : r < (2 : ℚ) ^ (1024 : ℕ) := by
  have h1 : (2 : ℚ) ^ (1022 : ℤ) < (2 : ℚ) ^ (1024 : ℤ) :=
    zpow_lt_zpow_right₀ (by norm_num) (by norm_num)
  have h2 : (2 : ℚ) ^ (1024 : ℤ) = (2 : ℚ) ^ (1024 : ℕ) := by
    rw [← zpow_natCast]; rfl
  linarith

theorem position64_eval (m x : ℚ) (hlo : (2 : ℚ) ^ (-1022 : ℤ) ≤ m)
    (hhi : m ≤ (2 : ℚ) ^ (1022 : ℤ)) (hx0 : 0 ≤ x) (hxm : x ≤ m) :
    (SequentialScale.mk 0 m).k10f = F64.finite (roundMagnitude (1 / roundMagnitude m)) ∧
    0 < roundMagnitude (1 / roundMagnitude m) ∧
    (SequentialScale.mk 0 m).position64 x =
      F64.finite (roundMagnitude (roundMagnitude x * roundMagnitude (1 / roundMagnitude m))) ∧
    roundMagnitude (roundMagnitude x * roundMagnitude (1 / roundMagnitude m)) ≤ 1 := by
  have hm : 0 < m := lt_of_lt_of_le (two_zpow_pos _) hlo
  have hMlo : (2 : ℚ) ^ (-1022 : ℤ) ≤ roundMagnitude m := by
    have := roundMagnitude_mono (le_of_lt (two_zpow_pos (-1022))) hlo
    rwa [roundMagnitude_zpow _ (by norm_num)] at this
  have hMhi : roundMagnitude m ≤ (2 : ℚ) ^ (1022 : ℤ) := by
    have := roundMagnitude_mono (le_of_lt hm) hhi
    rwa [roundMagnitude_zpow _ (by norm_num)] at this
  have hMpos : 0 < roundMagnitude m := lt_of_lt_of_le (two_zpow_pos _) hMlo
  obtain ⟨hKlo, hKhi, hMK⟩ := recip_bounds hMlo hMhi
  have hKpos : 0 < roundMagnitude (1 / roundMagnitude m) :=
    lt_of_lt_of_le (two_zpow_pos _) hKlo
  have hflm : fl (m - 0) = F64.finite (roundMagnitude m) := by
    rw [sub_zero]
    exact fl_of_nonneg (le_of_lt hm) (lt_overflow_of_le hMhi)
  have hk : (SequentialScale.mk 0 m).k10f =
      F64.finite (roundMagnitude (1 / roundMagnitude m)) := by
    have hne : ¬ ((0 : ℚ) = m) := fun e => (ne_of_gt hm) e.symm
    simp only [SequentialScale.k10f, if_neg hne, hflm, F64.recip, if_neg (ne_of_gt hMpos)]
    exact fl_of_nonneg (le_of_lt (by positivity)) (lt_overflow_of_le hKhi)
  have hX : roundMagnitude x ≤ roundMagnitude m := roundMagnitude_mono hx0 hxm
  have hX0 : 0 ≤ roundMagnitude x := roundMagnitude_nonneg hx0
  have hprod : roundMagnitude x * roundMagnitude (1 / roundMagnitude m) ≤
      1 + (2 : ℚ) ^ (-53 : ℤ) :=
    le_trans (mul_le_mul_of_nonneg_right hX (le_of_lt hKpos)) hMK
  have hprod0 : 0 ≤ roundMagnitude x * roundMagnitude (1 / roundMagnitude m) :=
    mul_nonneg hX0 (le_of_lt hKpos)
  have hle1 : roundMagnitude (roundMagnitude x * roundMagnitude (1 / roundMagnitude m)) ≤ 1 := by
    have := roundMagnitude_mono hprod0 hprod
    rwa [roundMagnitude_one_plus_half_ulp] at this
  refine ⟨hk, hKpos, ?_, hle1⟩
  have hflx : fl (x - 0) = F64.finite (roundMagnitude x) := by
    rw [sub_zero]
    exact fl_of_nonneg hx0 (lt_overflow_of_le (le_trans hX hMhi))
  have hk0 : ¬ (F64.finite (roundMagnitude (1 / roundMagnitude m)) = F64.finite 0) := by
    intro e
    injection e with e
    exact (ne_of_gt hKpos) e
  simp only [SequentialScale.position64, hk, if_neg hk0, hflx, F64.mul]
  apply fl_of_nonneg hprod0
  have h1 : (1 : ℚ) ≤ (2 : ℚ) ^ (1022 : ℤ) := by
    have := two_zpow_mono (m := 0) (n := 1022) (by norm_num)
    simpa using this
  exact lt_overflow_of_le (le_trans hle1 h1)

theorem ulpExp_subnormal {a : ℚ} (h0 : 0 < a) (h2 : a < (2 : ℚ) ^ (-1022 : ℤ)) :
    ulpExp a = -1074 := by
  have hlog : Int.log 2 a < -1022 := by
    apply (Int.lt_zpow_iff_log_lt (b := 2) (R := ℚ) (by norm_num) h0).mp
    simpa only [Nat.cast_ofNat] using h2
  rw [ulpExp, max_eq_right (le_of_lt hlog)]
  rfl

theorem roundMagnitude_eval {a : ℚ} {e n : ℤ} (h1 : (2 : ℚ) ^ e ≤ a)
    (h2 : a < (2 : ℚ) ^ (e + 1)) (he : -1022 ≤ e)
    (hn : roundHalfEven (a / (2 : ℚ) ^ (e - 52)) = n) :
    roundMagnitude a = (n : ℚ) * (2 : ℚ) ^ (e - 52) := by
  rw [roundMagnitude, ulpExp_eq h1 h2 he, hn]

theorem roundMagnitude_eval_subnormal {a : ℚ} {n : ℤ} (h0 : 0 < a)
    (h2 : a < (2 : ℚ) ^ (-1022 : ℤ))
    (hn : roundHalfEven (a / (2 : ℚ) ^ (-1074 : ℤ)) = n) :
    roundMagnitude a = (n : ℚ) * (2 : ℚ) ^ (-1074 : ℤ) := by
  rw [roundMagnitude, ulpExp_subnormal h0 h2, hn]

theorem position64_unfold (m x M K X : ℚ) (hm : m ≠ 0)
    (hM : fl (m - 0) = F64.finite M) (hM0 : M ≠ 0)
    (hK : fl (1 / M) = F64.finite K) (hK0 : K ≠ 0)
    (hX : fl (x - 0) = F64.finite X) :
    (SequentialScale.mk 0 m).position64 x = fl (X * K) := by
  have hne : ¬ ((0 : ℚ) = m) := fun e => hm e.symm
  have hk : (SequentialScale.mk 0 m).k10f = F64.finite K := by
    simp only [SequentialScale.k10f, if_neg hne, hM, F64.recip, if_neg hM0, hK]
  have hk0 : ¬ (F64.finite K = F64.finite 0) := by
    intro e
    injection e with e
    exact hK0 e
  simp only [SequentialScale.position64, hk, if_neg hk0, hX, F64.mul]

theorem render64_done (rt : Runtime) (interpolate : F64 → String) (svg : Svg)
    (aw : List (List (List (List ℚ))))
    (tokens : List String) (h : Int) (W : List (List ℚ))
    (htok : tokens ≠ []) (hsel : selectWeights aw h = some W) :
    render64 rt interpolate svg aw tokens h =
      (Outcome.done,
        { width := some 500, height := some 500
          children := [⟨(90, 20), draw64 rt interpolate tokens W h⟩] }) := by
  have h1 : ¬ (aw.length = 0 ∨ tokens.length = 0) := by
    intro hor
    rcases hor with h0 | h0
    · exact selectWeights_ne_nil hsel h0
    · exact htok (List.length_eq_zero.mp h0)
  have hw : width + margin.left + margin.right = 500 := by norm_num [width, margin]
  have hh : height + margin.top + margin.bottom = 500 := by norm_num [height, margin]
  simp only [render64, if_neg h1, hsel, hw, hh]
  rfl

theorem rects_draw64 (rt : Runtime) (interpolate : F64 → String) (tokens : List String)
    (W : List (List ℚ)) (h : Int) (a b : Option ℚ) (t : ℚ × ℚ) :
    Svg.rects { width := a, height := b, children := [⟨t, draw64 rt interpolate tokens W h⟩] } =
      cells64 rt interpolate tokens W := by
  have e : ((fun e : Elem => match e with
      | Elem.rect r => some r
      | _ => none) ∘ Elem.rect) = some := rfl
  simp [Svg.rects, Svg.elems, draw64, List.filterMap_append, List.filterMap_map, e]

theorem mem_cells64 (rt : Runtime) (interpolate : F64 → String) (tokens : List String)
    (W : List (List ℚ)) (c : Rect) (hc : c ∈ cells64 rt interpolate tokens W) :
    ∃ i j w, w ∈ W.flatten ∧ c = cell64 rt interpolate tokens W i j w := by
  rw [cells64, List.mem_flatten] at hc
  obtain ⟨r, hr, hcr⟩ := hc
  obtain ⟨i, row, hrow, rfl⟩ := mem_mapIdx_elim hr
  obtain ⟨j, w, hw, rfl⟩ := mem_mapIdx_elim hcr
  exact ⟨i, j, w, List.mem_flatten.mpr ⟨row, List.getElem?_mem hrow, List.getElem?_mem hw⟩, rfl⟩

theorem cell64_mem_cells64 (rt : Runtime) (interpolate : F64 → String) (tokens : List String)
    (W : List (List ℚ)) (i j : Nat) (w : ℚ)
    (hw : (W[i]?).bind (fun row => row[j]?) = some w) :
    cell64 rt interpolate tokens W i j w ∈ cells64 rt interpolate tokens W := by
  cases hi : W[i]? with
  | none => simp [hi] at hw
  | some row =>
    simp only [hi, Option.some_bind] at hw
    rw [cells64, List.mem_flatten]
    exact ⟨row.mapIdx (fun j w => cell64 rt interpolate tokens W i j w),
      mem_mapIdx_intro
        (f := fun i row => row.mapIdx (fun j w => cell64 rt interpolate tokens W i j w)) hi,
      mem_mapIdx_intro (f := fun j w => cell64 rt interpolate tokens W i j w) hw⟩

theorem cells64_getElem? (rt : Runtime) (interpolate : F64 → String) (tokens : List String)
    (W : List (List ℚ)) (m : Nat) (hcols : ∀ row ∈ W, row.length = m) (i j : Nat) (hj : j < m)
    (w : ℚ) (hw : (W[i]?).bind (fun row => row[j]?) = some w) :
    (cells64 rt interpolate tokens W)[i * m + j]? =
      some (cell64 rt interpolate tokens W i j w) := by
  rw [cells64, getElem?_flatten_uniform m _ _ i j hj]
  · rw [List.getElem?_mapIdx]
    cases hi : W[i]? with
    | none => simp [hi] at hw
    | some row =>
      simp only [hi, Option.some_bind] at hw
      simp [List.getElem?_mapIdx, hw]
  · intro r hr
    obtain ⟨i, row, hrow, rfl⟩ := mem_mapIdx_elim hr
    rw [List.length_mapIdx]
    exact hcols row (List.getElem?_mem hrow)

theorem position64_unfold_inf (m x M X : ℚ) (hm : m ≠ 0)
    (hM : fl (m - 0) = F64.finite M) (hM0 : M ≠ 0)
    (hK : fl (1 / M) = F64.posInf)
    (hX : fl (x - 0) = F64.finite X) :
    (SequentialScale.mk 0 m).position64 x = F64.timesInf X true := by
  have hne : ¬ ((0 : ℚ) = m) := fun e => hm e.symm
  have hk : (SequentialScale.mk 0 m).k10f = F64.posInf := by
    simp only [SequentialScale.k10f, if_neg hne, hM, F64.recip, if_neg hM0, hK]
  have hk0 : ¬ (F64.posInf = F64.finite 0) := fun e => F64.noConfusion e
  simp only [SequentialScale.position64, hk, if_neg hk0, hX, F64.mul]

/-! ## Layout (C10, C5) -/

theorem scaleBand_layout (n : Nat) (hn : 1 ≤ n) :
    BandLayout (scaleBand n 0 390 (5 / 100)) n 390 := by
  have hstep := scaleBand_step n hn
  have hpos := scaleBand_step_pos n hn
  have hbw := scaleBand_bandwidth n 0 390
  have h1 : (1 : ℚ) ≤ (n : ℚ) := by exact_mod_cast hn
  have hden : (0 : ℚ) < (n : ℚ) + 1 / 20 := by positivity
  have hmul : (scaleBand n 0 390 (5 / 100)).step * ((n : ℚ) + 1 / 20) = 390 := by
    rw [hstep]; field_simp
  have hlast : (((n - 1 : Nat) : ℚ)) = (n : ℚ) - 1 := by
    rw [Nat.cast_sub hn]; simp
  refine ⟨?_, ?_, ?_, ?_, ?_, ?_, ?_⟩
  · rw [hstep]; norm_num
  · rw [hbw]; norm_num
  · intro j hj
    rw [scaleBand_coord n j hj]; norm_num
  · intro j hj
    rw [scaleBand_coord n (j + 1) hj, scaleBand_coord n j (by omega), hbw]
    push_cast
    ring
  · linarith
  · rw [scaleBand_coord n 0 (by omega)]
    simp only [Nat.cast_zero, zero_mul, add_zero]
    linarith
  · rw [scaleBand_coord n (n - 1) (by omega), hbw, hlast]
    nlinarith

/-- C10: for a token list of length `N ≥ 1` the drawing area is 390 x 390 and
both band scales follow the layout `step = 390 / (N + 0.05)`,
`cell size = 0.95 * step`, `x(j) = y(j) = 0.05 * step + j * step`: adjacent
cells are separated by the same strictly positive gap `0.05 * step`,
`0 < x(0)`, `x(N-1) + cell size < 390` (likewise for `y`), and every cell of
the double loop has the one band width and the one band height. -/
theorem band_layout_uniform_inside (rt : Runtime) (tokens : List String)
    (W : List (List ℚ)) (hN : 1 ≤ tokens.length) :
    width = 390 ∧ height = 390 ∧
    BandLayout (xScale tokens) tokens.length width ∧
    BandLayout (yScale tokens) tokens.length height ∧
    ∀ c ∈ cells rt tokens W,
      c.width = (xScale tokens).bandwidth ∧ c.height = (yScale tokens).bandwidth := by
  refine ⟨width_eq, height_eq, ?_, ?_, ?_⟩
  · rw [xScale_eq, width_eq]; exact scaleBand_layout _ hN
  · rw [yScale_eq, height_eq]; exact scaleBand_layout _ hN
  · intro c hc
    rw [cells, List.mem_flatten] at hc
    obtain ⟨r, hr, hcr⟩ := hc
    obtain ⟨i, row, _, rfl⟩ := mem_mapIdx_elim hr
    obtain ⟨j, w, _, rfl⟩ := mem_mapIdx_elim hcr
    exact ⟨rfl, rfl⟩

theorem band_layout_uniform_inside_witness :
    1 ≤ tokens6.length ∧ width = 390 ∧ height = 390 ∧
    BandLayout (xScale tokens6) tokens6.length width ∧
    BandLayout (yScale tokens6) tokens6.length height ∧
    ∀ c ∈ cells sampleRuntime tokens6 diag6,
      c.width = (xScale tokens6).bandwidth ∧ c.height = (yScale tokens6).bandwidth :=
  ⟨by decide, band_layout_uniform_inside sampleRuntime tokens6 diag6 (by decide)⟩

theorem scaleBand_coord_injective (n i j : Nat) (hi : i < n) (hj : j < n)
    (h : (scaleBand n 0 390 (5 / 100)).coord i = (scaleBand n 0 390 (5 / 100)).coord j) :
    i = j := by
  have hpos := scaleBand_step_pos n (by omega)
  rw [scaleBand_coord n i hi, scaleBand_coord n j hj] at h
  have h2 : ((i : ℚ) - (j : ℚ)) * (scaleBand n 0 390 (5 / 100)).step = 0 := by linarith
  rcases mul_eq_zero.mp h2 with h3 | h3
  · have : (i : ℚ) = (j : ℚ) := by linarith
    exact_mod_cast this
  · linarith

theorem entry_exists (W : List (List ℚ)) (m i j : Nat) (hcols : ∀ row ∈ W, row.length = m)
    (hi : i < W.length) (hj : j < m) :
    ∃ w, (W[i]?).bind (fun row => row[j]?) = some w := by
  have hrow : W[i]? = some W[i] := List.getElem?_eq_getElem hi
  have hlen : W[i].length = m := hcols _ (List.getElem_mem hi)
  have hj2 : j < W[i].length := by omega
  exact ⟨W[i][j], by rw [hrow, Option.some_bind, List.getElem?_eq_getElem hj2]⟩

/-- C5: for a token list of length `N ≥ 1` and an `N x N` selected slice the
render completes and emits exactly `N * N` cells; the cell of the pair
`(i, j)` is the one emitted at index `i * N + j`, it is placed at
`(x(j), y(i))`, and distinct pairs have distinct positions. -/
theorem one_cell_per_pair (rt : Runtime) (svg : Svg) (aw : List (List (List (List ℚ))))
    (tokens : List String) (h : Int) (W : List (List ℚ))
    (hN : 1 ≤ tokens.length) (hsel : selectWeights aw h = some W)
    (hrows : W.length = tokens.length) (hcols : ∀ row ∈ W, row.length = tokens.length) :
    (render rt svg aw tokens h).1 = Outcome.done ∧
    (render rt svg aw tokens h).2.rects.length = tokens.length * tokens.length ∧
    (∀ i j, i < tokens.length → j < tokens.length →
      ∃ c, (render rt svg aw tokens h).2.rects[i * tokens.length + j]? = some c ∧
        c.x = (xScale tokens).coord j ∧ c.y = (yScale tokens).coord i) ∧
    (∀ i j i2 j2, i < tokens.length → j < tokens.length →
      i2 < tokens.length → j2 < tokens.length →
      (xScale tokens).coord j = (xScale tokens).coord j2 →
      (yScale tokens).coord i = (yScale tokens).coord i2 → i = i2 ∧ j = j2) := by
  have htok : tokens ≠ [] := by
    intro e; rw [e] at hN; simp at hN
  rw [render_done rt svg aw tokens h W htok hsel]
  simp only [rects_draw]
  refine ⟨trivial, ?_, ?_, ?_⟩
  · rw [cells_length_uniform rt tokens W tokens.length hcols, hrows]
  · intro i j hi hj
    obtain ⟨w, hw⟩ := entry_exists W tokens.length i j hcols (by omega) hj
    exact ⟨cell rt tokens W i j w,
      cells_getElem? rt tokens W tokens.length hcols i j hj w hw, rfl, rfl⟩
  · intro i j i2 j2 hi hj hi2 hj2 hx hy
    rw [xScale_eq] at hx
    rw [yScale_eq] at hy
    exact ⟨scaleBand_coord_injective _ i i2 hi hi2 hy,
      scaleBand_coord_injective _ j j2 hj hj2 hx⟩

theorem one_cell_per_pair_witness :
    (render sampleRuntime Svg.empty [[diag6]] tokens6 0).1 = Outcome.done ∧
    (render sampleRuntime Svg.empty [[diag6]] tokens6 0).2.rects.length = 36 ∧
    (∀ i j, i < 6 → j < 6 →
      ∃ c, (render sampleRuntime Svg.empty [[diag6]] tokens6 0).2.rects[i * 6 + j]? = some c ∧
        c.x = (xScale tokens6).coord j ∧ c.y = (yScale tokens6).coord i) ∧
    (∀ i j i2 j2, i < 6 → j < 6 → i2 < 6 → j2 < 6 →
      (xScale tokens6).coord j = (xScale tokens6).coord j2 →
      (yScale tokens6).coord i = (yScale tokens6).coord i2 → i = i2 ∧ j = j2) :=
  one_cell_per_pair sampleRuntime Svg.empty [[diag6]] tokens6 0 diag6
    (by decide) rfl (by decide) (by decide)

/-! ## Tooltip text (C1) -/

theorem toFixed_fixed (rt : Runtime) (x : ℚ) (f : Nat) (h0 : 0 ≤ x) (h1 : x < (10 : ℚ) ^ 21) :
    toFixed rt x f = String.mk (fixedDigits (nearestScaled x f) f) := by
  simp only [toFixed, if_neg (not_lt.mpr h0), if_neg (not_le.mpr h1)]
  rfl

theorem fixedDigits_four (n : Nat) :
    ∃ a b : List Char, fixedDigits n 4 = a ++ '.' :: b ∧ b.length = 4 ∧ a ≠ [] ∧
      a ++ b = List.replicate (5 - (Nat.toDigits 10 n).length) '0' ++ Nat.toDigits 10 n := by
  have hm : (if n = 0 then ['0'] else Nat.toDigits 10 n) = Nat.toDigits 10 n := by
    split
    · next h => subst h; rfl
    · rfl
  simp only [fixedDigits, hm]
  by_cases hk : (Nat.toDigits 10 n).length ≤ 4
  · simp only [if_pos hk, ne_eq, OfNat.ofNat_ne_zero, not_false_eq_true, if_true]
    refine ⟨_, _, rfl, ?_, ?_, ?_⟩
    · simp; omega
    · intro e
      have := congrArg List.length e
      simp at this
      omega
    · rw [List.take_append_drop]
  · simp only [if_neg hk, ne_eq, OfNat.ofNat_ne_zero, not_false_eq_true, if_true]
    refine ⟨_, _, rfl, ?_, ?_, ?_⟩
    · simp; omega
    · intro e
      have := congrArg List.length e
      simp at this
      omega
    · rw [List.take_append_drop]
      have : 5 - (Nat.toDigits 10 n).length = 0 := by omega
      simp [this]

theorem nearestScaled_close (x : ℚ) (f : Nat) (h0 : 0 ≤ x) :
    |((nearestScaled x f : Nat) : ℚ) / (10 : ℚ) ^ f - x| ≤ 1 / (2 * (10 : ℚ) ^ f) := by
  have hp : (0 : ℚ) < (10 : ℚ) ^ f := by positivity
  have hnn : (0 : ℤ) ≤ ⌊x * (10 : ℚ) ^ f + 1 / 2⌋ := by
    apply Int.floor_nonneg.mpr
    positivity
  have hcast : ((nearestScaled x f : Nat) : ℚ) = ((⌊x * (10 : ℚ) ^ f + 1 / 2⌋ : ℤ) : ℚ) := by
    rw [nearestScaled]
    have : ((⌊x * (10 : ℚ) ^ f + 1 / 2⌋.toNat : ℕ) : ℤ) = ⌊x * (10 : ℚ) ^ f + 1 / 2⌋ :=
      Int.toNat_of_nonneg hnn
    exact_mod_cast congrArg (fun z : ℤ => (z : ℚ)) this
  have hle := Int.floor_le (x * (10 : ℚ) ^ f + 1 / 2)
  have hlt := Int.lt_floor_add_one (x * (10 : ℚ) ^ f + 1 / 2)
  rw [hcast, abs_le]
  constructor
  · rw [le_sub_iff_add_le, neg_add_eq_sub, le_div_iff₀ hp]
    have : (x - 1 / (2 * (10 : ℚ) ^ f)) * (10 : ℚ) ^ f = x * (10 : ℚ) ^ f - 1 / 2 := by
      field_simp
      ring
    rw [this]
    linarith
  · rw [sub_le_iff_le_add, div_le_iff₀ hp]
    have : (1 / (2 * (10 : ℚ) ^ f) + x) * (10 : ℚ) ^ f = x * (10 : ℚ) ^ f + 1 / 2 := by
      field_simp
      ring
    rw [this]
    linarith

theorem toFixed_example :
    toFixed sampleRuntime (1234567 / 10000000) 4 = "0.1235" := by
  rw [toFixed_fixed _ _ _ (by norm_num) (by norm_num)]
  have hfloor : ⌊(1234567 / 10000000 : ℚ) * (10 : ℚ) ^ 4 + 1 / 2⌋ = 1235 := by
    rw [Int.floor_eq_iff]; norm_num
  have hn : nearestScaled (1234567 / 10000000) 4 = 1235 := by
    rw [nearestScaled, hfloor]; rfl
  rw [hn]
  rfl

/-- C1: for a token list of length `N ≥ 1` and an `N x N` selected slice `W`,
the cell drawn for row `i` and column `j` (index `i * N + j`, position
`(x(j), y(i))`) carries the tooltip
`"From: " + tokens[j] + ", To: " + tokens[i] + ", Weight: " + W[i][j].toFixed(4)`;
for `0 ≤ W[i][j] < 10^21` that last part is the nearest multiple of `10^-4`
written with a non-empty integer part, a dot and exactly four decimals. -/
theorem tooltip_text (rt : Runtime) (svg : Svg) (aw : List (List (List (List ℚ))))
    (tokens : List String) (h : Int) (W : List (List ℚ))
    (hN : 1 ≤ tokens.length) (hsel : selectWeights aw h = some W)
    (hrows : W.length = tokens.length) (hcols : ∀ row ∈ W, row.length = tokens.length)
    (i j : Nat) (ti tj : String) (w : ℚ)
    (hti : tokens[i]? = some ti) (htj : tokens[j]? = some tj)
    (hw : (W[i]?).bind (fun row => row[j]?) = some w) :
    (∃ c, (render rt svg aw tokens h).2.rects[i * tokens.length + j]? = some c ∧
      c.x = (xScale tokens).coord j ∧ c.y = (yScale tokens).coord i ∧
      c.title = "From: " ++ tj ++ ", To: " ++ ti ++ ", Weight: " ++ toFixed rt w 4) ∧
    (0 ≤ w → w < (10 : ℚ) ^ 21 →
      ∃ a b : List Char, toFixed rt w 4 = String.mk (a ++ '.' :: b) ∧
        b.length = 4 ∧ a ≠ [] ∧
        a ++ b = List.replicate (5 - (Nat.toDigits 10 (nearestScaled w 4)).length) '0' ++
          Nat.toDigits 10 (nearestScaled w 4) ∧
        |((nearestScaled w 4 : Nat) : ℚ) / (10 : ℚ) ^ 4 - w| ≤ 1 / (2 * (10 : ℚ) ^ 4)) := by
  have htok : tokens ≠ [] := by
    intro e; rw [e] at hN; simp at hN
  have hj : j < tokens.length := by
    by_contra hcon
    rw [List.getElem?_eq_none (by omega)] at htj
    exact Option.noConfusion htj
  constructor
  · rw [render_done rt svg aw tokens h W htok hsel]
    simp only [rects_draw]
    refine ⟨cell rt tokens W i j w,
      cells_getElem? rt tokens W tokens.length hcols i j hj w hw, rfl, rfl, ?_⟩
    simp only [cell, tooltip, tokenText, hti, htj, Option.getD_some]
  · intro h0 h1
    obtain ⟨a, b, hab, hb, ha, hcat⟩ := fixedDigits_four (nearestScaled w 4)
    exact ⟨a, b, by rw [toFixed_fixed rt w 4 h0 h1, hab], hb, ha, hcat,
      nearestScaled_close w 4 h0⟩

theorem tooltip_text_witness :
    ∃ c, (render sampleRuntime Svg.empty [[weights3]] tokens3 0).2.rects[0 * 3 + 1]? = some c ∧
      c.x = (xScale tokens3).coord 1 ∧ c.y = (yScale tokens3).coord 0 ∧
      c.title = "From: cat, To: The, Weight: 0.1235" := by
  obtain ⟨⟨c, hc, hx, hy, ht⟩, _⟩ :=
    tooltip_text sampleRuntime Svg.empty [[weights3]] tokens3 0 weights3
      (by decide) rfl (by decide) (by decide) 0 1 "The" "cat" (1234567 / 10000000)
      rfl rfl rfl
  refine ⟨c, hc, hx, hy, ?_⟩
  rw [ht, toFixed_example]
  rfl

/-! ## Axis labels (C9) -/

/-- C9: for a token list of length `N ≥ 1` and any selected slice, the render
emits one group of `N` labels below the grid and one group of `N` labels left
of it; the `k`-th label of either group reads `tokens[k]`, the `k`-th bottom
label is centred at `x(k) + cellWidth / 2` and the `k`-th left label at
`y(k) + cellHeight / 2`. -/
theorem axis_labels (rt : Runtime) (svg : Svg) (aw : List (List (List (List ℚ))))
    (tokens : List String) (h : Int) (W : List (List ℚ))
    (hN : 1 ≤ tokens.length) (hsel : selectWeights aw h = some W) :
    ∃ bottom left : List Text,
      (render rt svg aw tokens h).2.labelGroups = [(some (0, 390), bottom), (none, left)] ∧
      bottom.length = tokens.length ∧ left.length = tokens.length ∧
      ∀ k tk, tokens[k]? = some tk →
        ∃ b l, bottom[k]? = some b ∧ left[k]? = some l ∧
          b.content = tk ∧ l.content = tk ∧
          b.x = (xScale tokens).coord k + (xScale tokens).bandwidth / 2 ∧
          l.y = (yScale tokens).coord k + (yScale tokens).bandwidth / 2 := by
  have htok : tokens ≠ [] := by
    intro e; rw [e] at hN; simp at hN
  rw [render_done rt svg aw tokens h W htok hsel]
  refine ⟨xLabels tokens, yLabels tokens, ?_, ?_, ?_, ?_⟩
  · rw [labelGroups_draw, height_eq]
  · rw [xLabels, List.length_mapIdx]
  · rw [yLabels, List.length_mapIdx]
  · intro k tk hk
    have hb : ∃ b, (xLabels tokens)[k]? = some b ∧ b.content = tk ∧
        b.x = (xScale tokens).coord k + (xScale tokens).bandwidth / 2 := by
      rw [xLabels, List.getElem?_mapIdx, hk]
      exact ⟨_, rfl, rfl, rfl⟩
    have hl : ∃ l, (yLabels tokens)[k]? = some l ∧ l.content = tk ∧
        l.y = (yScale tokens).coord k + (yScale tokens).bandwidth / 2 := by
      rw [yLabels, List.getElem?_mapIdx, hk]
      exact ⟨_, rfl, rfl, rfl⟩
    obtain ⟨b, hb1, hb2, hb3⟩ := hb
    obtain ⟨l, hl1, hl2, hl3⟩ := hl
    exact ⟨b, l, hb1, hl1, hb2, hl2, hb3, hl3⟩

theorem axis_labels_witness :
    1 ≤ tokens6.length ∧
    ∃ bottom left : List Text,
      (render sampleRuntime Svg.empty [[diag6]] tokens6 0).2.labelGroups =
        [(some (0, 390), bottom), (none, left)] ∧
      bottom.length = 6 ∧ left.length = 6 ∧
      ∀ k tk, tokens6[k]? = some tk →
        ∃ b l, bottom[k]? = some b ∧ left[k]? = some l ∧
          b.content = tk ∧ l.content = tk ∧
          b.x = (xScale tokens6).coord k + (xScale tokens6).bandwidth / 2 ∧
          l.y = (yScale tokens6).coord k + (yScale tokens6).bandwidth / 2 :=
  ⟨by decide, axis_labels sampleRuntime Svg.empty [[diag6]] tokens6 0 diag6 (by decide) rfl⟩

/-! ## Colour domain (C6) -/

theorem d3max_step (l : List ℚ) : ∀ acc : ℚ,
    ∃ m, l.foldl (fun max value =>
        match max with
        | none => some value
        | some m => if m < value then some value else some m) (some acc) = some m ∧
      (m = acc ∨ m ∈ l) ∧ acc ≤ m ∧ ∀ x ∈ l, x ≤ m := by
  induction l with
  | nil => intro acc; exact ⟨acc, rfl, Or.inl rfl, le_refl _, by simp⟩
  | cons a l ih =>
    intro acc
    simp only [List.foldl_cons]
    by_cases hlt : acc < a
    · simp only [if_pos hlt]
      obtain ⟨m, hm, hmem, hge, hall⟩ := ih a
      refine ⟨m, hm, ?_, by linarith, ?_⟩
      · rcases hmem with rfl | hmem
        · exact Or.inr (List.mem_cons_self _ _)
        · exact Or.inr (List.mem_cons_of_mem _ hmem)
      · intro x hx
        rcases List.mem_cons.mp hx with rfl | hx
        · exact hge
        · exact hall x hx
    · simp only [if_neg hlt]
      obtain ⟨m, hm, hmem, hge, hall⟩ := ih acc
      refine ⟨m, hm, ?_, hge, ?_⟩
      · rcases hmem with rfl | hmem
        · exact Or.inl rfl
        · exact Or.inr (List.mem_cons_of_mem _ hmem)
      · intro x hx
        rcases List.mem_cons.mp hx with rfl | hx
        · linarith
        · exact hall x hx

theorem d3max_nil : d3max [] = none := rfl

theorem d3max_cons (a : ℚ) (l : List ℚ) :
    ∃ m, d3max (a :: l) = some m ∧ m ∈ a :: l ∧ ∀ x ∈ a :: l, x ≤ m := by
  obtain ⟨m, hm, hmem, hge, hall⟩ := d3max_step l a
  refine ⟨m, hm, ?_, ?_⟩
  · rcases hmem with rfl | hmem
    · exact List.mem_cons_self _ _
    · exact List.mem_cons_of_mem _ hmem
  · intro x hx
    rcases List.mem_cons.mp hx with rfl | hx
    · exact hge
    · exact hall x hx

theorem domainMax_cases (W : List (List ℚ)) :
    (W.flatten = [] ∧ domainMax W = 1) ∨
    (∃ m, m ∈ W.flatten ∧ (∀ x ∈ W.flatten, x ≤ m) ∧
      domainMax W = if m = 0 then 1 else m) := by
  unfold domainMax
  cases hfl : W.flatten with
  | nil => left; exact ⟨rfl, by rw [d3max_nil]⟩
  | cons a l =>
    right
    obtain ⟨m, hm, hmem, hall⟩ := d3max_cons a l
    exact ⟨m, hmem, hall, by rw [hm]⟩

theorem domainMax_pos (W : List (List ℚ)) (hnn : ∀ w ∈ W.flatten, 0 ≤ w) :
    0 < domainMax W := by
  rcases domainMax_cases W with ⟨_, h1⟩ | ⟨m, hmem, _, hd⟩
  · rw [h1]; norm_num
  · rw [hd]
    by_cases h0 : m = 0
    · rw [if_pos h0]; norm_num
    · rw [if_neg h0]
      exact lt_of_le_of_ne (hnn m hmem) (Ne.symm h0)

theorem position_eq (W : List (List ℚ)) (hnn : ∀ w ∈ W.flatten, 0 ≤ w) (w : ℚ) :
    (colorDomain W).position w = w / domainMax W := by
  have hpos := domainMax_pos W hnn
  have hne : (0 : ℚ) ≠ domainMax W := ne_of_lt hpos
  have hk : (colorDomain W).k10 = 1 / domainMax W := by
    simp only [SequentialScale.k10, colorDomain, if_neg hne, sub_zero]
  have hk0 : (colorDomain W).k10 ≠ 0 := by
    rw [hk]; positivity
  rw [SequentialScale.position, if_neg hk0, hk]
  simp only [colorDomain, sub_zero]
  ring

theorem mem_cells (rt : Runtime) (tokens : List String) (W : List (List ℚ)) (c : Rect)
    (hc : c ∈ cells rt tokens W) :
    ∃ i j w, w ∈ W.flatten ∧ c = cell rt tokens W i j w := by
  rw [cells, List.mem_flatten] at hc
  obtain ⟨r, hr, hcr⟩ := hc
  obtain ⟨i, row, hrow, rfl⟩ := mem_mapIdx_elim hr
  obtain ⟨j, w, hw, rfl⟩ := mem_mapIdx_elim hcr
  exact ⟨i, j, w, List.mem_flatten.mpr ⟨row, List.getElem?_mem hrow, List.getElem?_mem hw⟩, rfl⟩

/-- C6: for a slice with non-negative entries, `domainMax` is 1 when every
entry is zero (in particular when there is none) and is the largest entry of
the whole slice when some entry is positive; it is always positive, the scale
factor is `1 / domainMax` (no division by zero) and the position of a weight
`w` is `w / domainMax`; an all-zero `N x N` slice still renders `N * N`
cells, each filled with the colour of scale position 0. -/
theorem colour_domain (rt : Runtime) (W : List (List ℚ))
    (hnn : ∀ w ∈ W.flatten, 0 ≤ w) :
    ((∀ w ∈ W.flatten, w = 0) → domainMax W = 1) ∧
    ((∃ w ∈ W.flatten, 0 < w) →
      domainMax W ∈ W.flatten ∧ ∀ w ∈ W.flatten, w ≤ domainMax W) ∧
    0 < domainMax W ∧
    (colorDomain W).k10 = 1 / domainMax W ∧
    (∀ w, (colorDomain W).position w = w / domainMax W) ∧
    ((∀ w ∈ W.flatten, w = 0) →
      ∀ (svg : Svg) (aw : List (List (List (List ℚ)))) (tokens : List String) (h : Int),
        1 ≤ tokens.length → selectWeights aw h = some W →
        W.length = tokens.length → (∀ row ∈ W, row.length = tokens.length) →
        (render rt svg aw tokens h).1 = Outcome.done ∧
        (render rt svg aw tokens h).2.rects.length = tokens.length * tokens.length ∧
        ∀ c ∈ (render rt svg aw tokens h).2.rects, c.fill = rt.interpolateBlues 0) := by
  have hpos := domainMax_pos W hnn
  have hne : (0 : ℚ) ≠ domainMax W := ne_of_lt hpos
  refine ⟨?_, ?_, hpos, ?_, position_eq W hnn, ?_⟩
  · intro hz
    rcases domainMax_cases W with ⟨_, h1⟩ | ⟨m, hmem, _, hd⟩
    · exact h1
    · rw [hd, if_pos (hz m hmem)]
  · rintro ⟨w, hw, hwpos⟩
    rcases domainMax_cases W with ⟨hnil, _⟩ | ⟨m, hmem, hall, hd⟩
    · rw [hnil] at hw; simp at hw
    · have hm : m ≠ 0 := by
        have := hall w hw
        intro e; rw [e] at this; linarith
      rw [hd, if_neg hm]
      exact ⟨hmem, hall⟩
  · simp only [SequentialScale.k10, colorDomain, if_neg hne, sub_zero]
  · intro hz svg aw tokens h hN hsel hrows hcols
    have htok : tokens ≠ [] := by
      intro e; rw [e] at hN; simp at hN
    rw [render_done rt svg aw tokens h W htok hsel]
    simp only [rects_draw]
    refine ⟨trivial, ?_, ?_⟩
    · rw [cells_length_uniform rt tokens W tokens.length hcols, hrows]
    · intro c hc
      obtain ⟨i, j, w, hw, rfl⟩ := mem_cells rt tokens W c hc
      simp only [cell, colorScale]
      rw [position_eq W hnn, hz w hw, zero_div]

theorem colour_domain_witness :
    (∀ w ∈ zeros3.flatten, 0 ≤ w) ∧
    domainMax zeros3 = 1 ∧ 0 < domainMax zeros3 ∧
    (render sampleRuntime Svg.empty [[zeros3]] tokens3 0).1 = Outcome.done ∧
    (render sampleRuntime Svg.empty [[zeros3]] tokens3 0).2.rects.length = 9 ∧
    ∀ c ∈ (render sampleRuntime Svg.empty [[zeros3]] tokens3 0).2.rects,
      c.fill = sampleRuntime.interpolateBlues 0 := by
  have hz : ∀ w ∈ zeros3.flatten, w = 0 := by
    intro w hw
    simpa [zeros3] using hw
  have hnn : ∀ w ∈ zeros3.flatten, 0 ≤ w := fun w hw => le_of_eq (hz w hw).symm
  obtain ⟨h1, _, h3, _, _, h6⟩ := colour_domain sampleRuntime zeros3 hnn
  exact ⟨hnn, h1 hz, h3,
    h6 hz Svg.empty [[zeros3]] tokens3 0 (by decide) rfl (by decide) (by decide)⟩

/-! ## Colour position in binary64 (C7) -/

theorem le_domainMax (W : List (List ℚ)) :
    ∀ w ∈ W.flatten, w ≤ domainMax W := by
  intro w hw
  rcases domainMax_cases W with ⟨hnil, _⟩ | ⟨m, hmem, hall, hd⟩
  · rw [hnil] at hw; simp at hw
  · rw [hd]
    have hwm := hall w hw
    by_cases h0 : m = 0
    · rw [if_pos h0]; rw [h0] at hwm; linarith
    · rw [if_neg h0]; exact hwm

theorem diag6_nonneg : ∀ w ∈ diag6.flatten, 0 ≤ w := by
  intro w hw
  simp [diag6] at hw
  rcases hw with rfl | rfl | rfl | rfl | rfl | rfl | rfl | rfl | rfl | rfl | rfl <;> norm_num

theorem domainMax_diag6 : domainMax diag6 = 1 / 2 := by
  norm_num [domainMax, d3max, diag6]

theorem roundMagnitude_d021 : roundMagnitude d021 = d021 := by
  rw [roundMagnitude_eval (e := -3) (n := 7566047373982433)
    (by norm_num [d021]) (by norm_num [d021]) (by norm_num)
    (roundHalfEven_of_lt (by norm_num [d021]) (by norm_num [d021]))]
  norm_num [d021]

theorem roundMagnitude_d021next : roundMagnitude d021next = d021next := by
  rw [roundMagnitude_eval (e := -3) (n := 7566047373982434)
    (by norm_num [d021next]) (by norm_num [d021next]) (by norm_num)
    (roundHalfEven_of_lt (by norm_num [d021next]) (by norm_num [d021next]))]
  norm_num [d021next]

theorem roundMagnitude_d041 : roundMagnitude d041 = d041 := by
  rw [roundMagnitude_eval (e := -2) (n := 7385903388887613)
    (by norm_num [d041]) (by norm_num [d041]) (by norm_num)
    (roundHalfEven_of_lt (by norm_num [d041]) (by norm_num [d041]))]
  norm_num [d041]

theorem roundMagnitude_recip_d041 :
    roundMagnitude (1 / d041) = 5492194667524995 / 2251799813685248 := by
  rw [roundMagnitude_eval (e := 1) (n := 5492194667524995)
    (by norm_num [d041]) (by norm_num [d041]) (by norm_num)
    (roundHalfEven_of_lt (by norm_num [d041]) (by norm_num [d041]))]
  norm_num

theorem roundMagnitude_d021_scaled :
    roundMagnitude (d021 * (5492194667524995 / 2251799813685248)) =
      1153360880180249 / 2251799813685248 := by
  rw [roundMagnitude_eval (e := -1) (n := 4613443520720995 + 1)
    (by norm_num [d021]) (by norm_num [d021]) (by norm_num)
    (roundHalfEven_of_gt (by norm_num [d021]) (by norm_num [d021]))]
  norm_num

theorem roundMagnitude_d021next_scaled :
    roundMagnitude (d021next * (5492194667524995 / 2251799813685248)) =
      1153360880180249 / 2251799813685248 := by
  rw [roundMagnitude_eval (e := -1) (n := 4613443520720996)
    (by norm_num [d021next]) (by norm_num [d021next]) (by norm_num)
    (roundHalfEven_of_lt (by norm_num [d021next]) (by norm_num [d021next]))]
  norm_num

theorem domainMax_near41 : domainMax near41 = d041 := by
  norm_num [domainMax, d3max, near41, d021, d021next, d041]

theorem lt_overflow_of_le_one {r : ℚ} (h : r ≤ 2) : r < (2 : ℚ) ^ (1024 : ℕ) := by
  have h1 : (2 : ℚ) ≤ (2 : ℚ) ^ (1022 : ℤ) := by
    have := two_zpow_mono (m := 1) (n := 1022) (by norm_num)
    simpa using this
  exact lt_overflow_of_le (le_trans h h1)

theorem position64_near41 :
    (colorDomain near41).position64 d021 =
      F64.finite (1153360880180249 / 2251799813685248) ∧
    (colorDomain near41).position64 d021next =
      F64.finite (1153360880180249 / 2251799813685248) := by
  have hdom : colorDomain near41 = SequentialScale.mk 0 d041 := by
    rw [colorDomain, domainMax_near41]
  have hm : d041 ≠ 0 := by norm_num [d041]
  have hM : fl (d041 - 0) = F64.finite d041 := by
    rw [sub_zero, fl_of_nonneg (by norm_num [d041]) (by
      rw [roundMagnitude_d041]; exact lt_overflow_of_le_one (by norm_num [d041])),
      roundMagnitude_d041]
  have hK : fl (1 / d041) = F64.finite (5492194667524995 / 2251799813685248) := by
    rw [fl_of_nonneg (by norm_num [d041]) (by
      rw [roundMagnitude_recip_d041]; norm_num), roundMagnitude_recip_d041]
  have hK0 : (5492194667524995 / 2251799813685248 : ℚ) ≠ 0 := by norm_num
  have hXa : fl (d021 - 0) = F64.finite d021 := by
    rw [sub_zero, fl_of_nonneg (by norm_num [d021]) (by
      rw [roundMagnitude_d021]; exact lt_overflow_of_le_one (by norm_num [d021])),
      roundMagnitude_d021]
  have hXb : fl (d021next - 0) = F64.finite d021next := by
    rw [sub_zero, fl_of_nonneg (by norm_num [d021next]) (by
      rw [roundMagnitude_d021next]; exact lt_overflow_of_le_one (by norm_num [d021next])),
      roundMagnitude_d021next]
  rw [hdom, position64_unfold d041 d021 d041 _ d021 hm hM hm hK hK0 hXa,
    position64_unfold d041 d021next d041 _ d021next hm hM hm hK hK0 hXb]
  constructor
  · rw [fl_of_nonneg (by norm_num [d021]) (by
      rw [roundMagnitude_d021_scaled]; norm_num), roundMagnitude_d021_scaled]
  · rw [fl_of_nonneg (by norm_num [d021next]) (by
      rw [roundMagnitude_d021next_scaled]; norm_num), roundMagnitude_d021next_scaled]

theorem dTiny_pos : 0 < dTiny := two_zpow_pos _

theorem domainMax_tinyMax : domainMax tinyMax = dTiny := by
  have hpos := dTiny_pos
  have hne : dTiny ≠ 0 := ne_of_gt hpos
  have hnlt : ¬ dTiny < 0 := not_lt.mpr (le_of_lt hpos)
  simp [domainMax, d3max, tinyMax, hpos, hne, hnlt]

theorem fl_dTiny : fl (dTiny - 0) = F64.finite dTiny := by
  have hr : roundMagnitude dTiny = dTiny := roundMagnitude_zpow _ (by norm_num)
  rw [sub_zero, fl_of_nonneg (le_of_lt dTiny_pos) (by
    rw [hr]
    exact lt_overflow_of_le (two_zpow_mono (by norm_num))), hr]

theorem fl_recip_dTiny : fl (1 / dTiny) = F64.posInf := by
  have hinv : 1 / dTiny = (2 : ℚ) ^ (1030 : ℤ) := by
    rw [dTiny, one_div, ← zpow_neg]; norm_num
  rw [hinv]
  apply fl_overflow (le_of_lt (two_zpow_pos _))
  rw [roundMagnitude_zpow _ (by norm_num)]
  have h2 : (2 : ℚ) ^ (1024 : ℤ) = (2 : ℚ) ^ (1024 : ℕ) := by
    rw [← zpow_natCast]; rfl
  rw [← h2]
  exact two_zpow_mono (by norm_num)

theorem fl_zero : fl ((0 : ℚ) - 0) = F64.finite 0 := by
  rw [sub_zero, fl_of_nonneg (le_refl 0) (by
    rw [roundMagnitude_zero]; positivity), roundMagnitude_zero]

theorem position64_tinyMax : (colorDomain tinyMax).position64 0 = F64.nan := by
  have hdom : colorDomain tinyMax = SequentialScale.mk 0 dTiny := by
    rw [colorDomain, domainMax_tinyMax]
  rw [hdom, position64_unfold_inf dTiny 0 dTiny 0 (ne_of_gt dTiny_pos) fl_dTiny
    (ne_of_gt dTiny_pos) fl_recip_dTiny fl_zero]
  rw [F64.timesInf, if_pos rfl]

theorem dHuge_pos : 0 < dHuge := by
  rw [dHuge]
  exact mul_pos (by norm_num) (two_zpow_pos _)

theorem domainMax_hugeMax : domainMax hugeMax = dHuge := by
  have hpos := dHuge_pos
  have hne : dHuge ≠ 0 := ne_of_gt hpos
  have hnlt : ¬ dHuge < 0 := not_lt.mpr (le_of_lt hpos)
  simp [domainMax, d3max, hugeMax, hpos, hne, hnlt]

theorem roundMagnitude_dHuge : roundMagnitude dHuge = dHuge := by
  rw [roundMagnitude_eval (e := 1023) (n := 7595248057247262)
    (by norm_num [dHuge]) (by norm_num [dHuge]) (by norm_num)
    (roundHalfEven_of_lt (by norm_num [dHuge]) (by norm_num [dHuge]))]
  norm_num [dHuge]

theorem roundMagnitude_recip_dHuge :
    roundMagnitude (1 / dHuge) = 1335203896619185 * (2 : ℚ) ^ (-1074 : ℤ) := by
  rw [roundMagnitude_eval_subnormal (n := 1335203896619184 + 1)
    (by norm_num [dHuge]) (by norm_num [dHuge])
    (roundHalfEven_of_gt (by norm_num [dHuge]) (by norm_num [dHuge]))]
  norm_num

theorem roundMagnitude_dHuge_scaled :
    roundMagnitude (dHuge * (1335203896619185 * (2 : ℚ) ^ (-1074 : ℤ))) =
      2251799813685249 / 2251799813685248 := by
  rw [roundMagnitude_eval (e := 0) (n := 4503599627370497 + 1)
    (by norm_num [dHuge]) (by norm_num [dHuge]) (by norm_num)
    (roundHalfEven_of_gt (by norm_num [dHuge]) (by norm_num [dHuge]))]
  norm_num

theorem position64_hugeMax :
    (colorDomain hugeMax).position64 dHuge =
      F64.finite (2251799813685249 / 2251799813685248) := by
  have hdom : colorDomain hugeMax = SequentialScale.mk 0 dHuge := by
    rw [colorDomain, domainMax_hugeMax]
  have hm : dHuge ≠ 0 := ne_of_gt dHuge_pos
  have hM : fl (dHuge - 0) = F64.finite dHuge := by
    rw [sub_zero, fl_of_nonneg (le_of_lt dHuge_pos) (by
      rw [roundMagnitude_dHuge]; norm_num [dHuge]), roundMagnitude_dHuge]
  have hK : fl (1 / dHuge) = F64.finite (1335203896619185 * (2 : ℚ) ^ (-1074 : ℤ)) := by
    rw [fl_of_nonneg (le_of_lt (by have := dHuge_pos; positivity)) (by
      rw [roundMagnitude_recip_dHuge]; norm_num), roundMagnitude_recip_dHuge]
  have hK0 : (1335203896619185 * (2 : ℚ) ^ (-1074 : ℤ)) ≠ 0 :=
    ne_of_gt (mul_pos (by norm_num) (two_zpow_pos _))
  rw [hdom, position64_unfold dHuge dHuge dHuge _ dHuge hm hM hm hK hK0 hM]
  rw [fl_of_nonneg (le_of_lt (mul_pos dHuge_pos (mul_pos (by norm_num) (two_zpow_pos _)))) (by
    rw [roundMagnitude_dHuge_scaled]; norm_num), roundMagnitude_dHuge_scaled]

theorem roundMagnitude_tenth :
    roundMagnitude (1 / 10) = 3602879701896397 / 36028797018963968 := by
  rw [roundMagnitude_eval (e := -4) (n := 7205759403792793 + 1)
    (by norm_num) (by norm_num) (by norm_num)
    (roundHalfEven_of_gt (by norm_num) (by norm_num))]
  norm_num

theorem roundMagnitude_fifth :
    roundMagnitude (3602879701896397 / 36028797018963968 * 2) =
      3602879701896397 / 18014398509481984 := by
  rw [roundMagnitude_eval (e := -3) (n := 7205759403792794)
    (by norm_num) (by norm_num) (by norm_num)
    (roundHalfEven_of_lt (by norm_num) (by norm_num))]
  norm_num

theorem position64_diag6 :
    (colorDomain diag6).position64 (1 / 2) = F64.finite 1 ∧
    (colorDomain diag6).position64 (1 / 10) =
      F64.finite (3602879701896397 / 18014398509481984) := by
  have hdom : colorDomain diag6 = SequentialScale.mk 0 (1 / 2) := by
    rw [colorDomain, domainMax_diag6]
  have hhalf : roundMagnitude (1 / 2) = 1 / 2 := by
    have := roundMagnitude_zpow (-1) (by norm_num)
    norm_num at this
    simpa using this
  have htwo : roundMagnitude 2 = 2 := by
    have := roundMagnitude_zpow 1 (by norm_num)
    simpa using this
  have hone : roundMagnitude 1 = 1 := by
    have := roundMagnitude_zpow 0 (by norm_num)
    simpa using this
  have hm : (1 / 2 : ℚ) ≠ 0 := by norm_num
  have hM : fl ((1 / 2 : ℚ) - 0) = F64.finite (1 / 2) := by
    rw [sub_zero, fl_of_nonneg (by norm_num) (by
      rw [hhalf]; exact lt_overflow_of_le_one (by norm_num)), hhalf]
  have hK : fl (1 / (1 / 2 : ℚ)) = F64.finite 2 := by
    have e : (1 / (1 / 2 : ℚ)) = 2 := by norm_num
    rw [e, fl_of_nonneg (by norm_num) (by
      rw [htwo]; exact lt_overflow_of_le_one (by norm_num)), htwo]
  have hK0 : (2 : ℚ) ≠ 0 := by norm_num
  have hX : fl ((1 / 10 : ℚ) - 0) = F64.finite (3602879701896397 / 36028797018963968) := by
    rw [sub_zero, fl_of_nonneg (by norm_num) (by
      rw [roundMagnitude_tenth]; exact lt_overflow_of_le_one (by norm_num)),
      roundMagnitude_tenth]
  rw [hdom, position64_unfold (1 / 2) (1 / 2) (1 / 2) 2 (1 / 2) hm hM hm hK hK0 hM,
    position64_unfold (1 / 2) (1 / 10) (1 / 2) 2 _ hm hM hm hK hK0 hX]
  constructor
  · have e : (1 / 2 : ℚ) * 2 = 1 := by norm_num
    rw [e, fl_of_nonneg (by norm_num) (by
      rw [hone]; exact lt_overflow_of_le_one (by norm_num)), hone]
  · rw [fl_of_nonneg (by norm_num) (by
      rw [roundMagnitude_fifth]; exact lt_overflow_of_le_one (by norm_num)),
      roundMagnitude_fifth]

/-- C7 as stated fails in binary64, where line 49 computes
`(w - 0) * (1 / (domainMax - 0))` with a rounding after each operation: under
`domainMax = 0.41` the weights `0.21` and the binary64 number that follows it
get the same position `0.5121951219512195`, so the cells of row 0 are filled
alike; under the subnormal maximum `2^(-1030)` the factor is `Infinity` and
the position of weight 0 is `NaN`; under the maximum
`0x1.afbd67e6ee61ep+1023` the position of the maximum itself exceeds 1. -/
theorem colour_position_not_strict :
    (d021 < d021next ∧ d021next ≤ domainMax near41 ∧
      (colorDomain near41).position64 d021 = (colorDomain near41).position64 d021next ∧
      ∀ interpolate : F64 → String,
        ∃ c0 c1,
          (render64 sampleRuntime interpolate Svg.empty [[near41]] tokens2 0).2.rects[0]? =
            some c0 ∧
          (render64 sampleRuntime interpolate Svg.empty [[near41]] tokens2 0).2.rects[1]? =
            some c1 ∧
          c0.fill = interpolate (F64.finite (1153360880180249 / 2251799813685248)) ∧
          c1.fill = interpolate (F64.finite (1153360880180249 / 2251799813685248))) ∧
    ((∀ w ∈ tinyMax.flatten, 0 ≤ w) ∧ (colorDomain tinyMax).position64 0 = F64.nan) ∧
    ((∀ w ∈ hugeMax.flatten, 0 ≤ w) ∧ dHuge ≤ domainMax hugeMax ∧
      (colorDomain hugeMax).position64 dHuge =
        F64.finite (2251799813685249 / 2251799813685248) ∧
      (1 : ℚ) < 2251799813685249 / 2251799813685248) := by
  refine ⟨⟨by norm_num [d021, d021next], ?_, ?_, ?_⟩, ⟨?_, position64_tinyMax⟩,
    ⟨?_, ?_, position64_hugeMax, by norm_num⟩⟩
  · rw [domainMax_near41]; norm_num [d021next, d041]
  · rw [position64_near41.1, position64_near41.2]
  · intro interpolate
    have ht : tokens2 ≠ [] := by decide
    have hcols : ∀ row ∈ near41, row.length = 2 := by
      intro row hrow
      simp only [near41, List.mem_cons, List.mem_singleton, List.not_mem_nil, or_false] at hrow
      rcases hrow with rfl | rfl <;> rfl
    rw [render64_done sampleRuntime interpolate Svg.empty [[near41]] tokens2 0 near41 ht rfl]
    simp only [rects_draw64]
    have h0 := cells64_getElem? sampleRuntime interpolate tokens2 near41 2 hcols 0 0
      (by norm_num) d021 rfl
    have h1 := cells64_getElem? sampleRuntime interpolate tokens2 near41 2 hcols 0 1
      (by norm_num) d021next rfl
    refine ⟨_, _, h0, h1, ?_, ?_⟩
    · show interpolate ((colorDomain near41).position64 d021) = _
      rw [position64_near41.1]
    · show interpolate ((colorDomain near41).position64 d021next) = _
      rw [position64_near41.2]
  · intro w hw
    have hpos := dTiny_pos
    simp only [tinyMax, List.flatten, List.append_nil, List.cons_append, List.nil_append,
      List.mem_cons, List.mem_singleton, List.not_mem_nil, or_false] at hw
    rcases hw with rfl | rfl | rfl | rfl
    · exact le_refl _
    · exact le_of_lt hpos
    · exact le_refl _
    · exact le_refl _
  · intro w hw
    have hpos := dHuge_pos
    simp only [hugeMax, List.flatten, List.append_nil, List.cons_append, List.nil_append,
      List.mem_cons, List.mem_singleton, List.not_mem_nil, or_false] at hw
    rcases hw with rfl | rfl | rfl | rfl
    · exact le_of_lt hpos
    · exact le_refl _
    · exact le_refl _
    · exact le_refl _
  · rw [domainMax_hugeMax]

/-- C7, amended: for a non-empty token list and a selected slice with
non-negative entries whose `domainMax` lies in `[2^(-1022), 2^1022]`, every
cell of weight `w` is filled with the interpolator applied to the binary64
number `t(w) = fl(fl(w - 0) * fl(1 / fl(domainMax - 0)))`. `t` is weakly
increasing: for all weights `0 ≤ a ≤ b ≤ domainMax` both positions are finite
and `t(a) ≤ t(b)`; `t(0) = 0`; and every cell of the slice has `t` in
`[0, 1]`. -/
theorem colour_position_weakly_increasing (rt : Runtime) (interpolate : F64 → String)
    (svg : Svg) (aw : List (List (List (List ℚ)))) (tokens : List String) (h : Int)
    (W : List (List ℚ))
    (hN : 1 ≤ tokens.length) (hsel : selectWeights aw h = some W)
    (hnn : ∀ w ∈ W.flatten, 0 ≤ w)
    (hlo : (2 : ℚ) ^ (-1022 : ℤ) ≤ domainMax W) (hhi : domainMax W ≤ (2 : ℚ) ^ (1022 : ℤ)) :
    (render64 rt interpolate svg aw tokens h).1 = Outcome.done ∧
    (∀ w, (colorDomain W).position64 w =
      F64.mul (fl (w - 0)) (F64.recip (fl (domainMax W - 0)))) ∧
    (∀ i j w, (W[i]?).bind (fun row => row[j]?) = some w →
      ∃ c ∈ (render64 rt interpolate svg aw tokens h).2.rects,
        c = cell64 rt interpolate tokens W i j w ∧
        c.fill = interpolate ((colorDomain W).position64 w)) ∧
    (∀ c ∈ (render64 rt interpolate svg aw tokens h).2.rects,
      ∃ w ∈ W.flatten, ∃ t : ℚ,
        c.fill = interpolate (F64.finite t) ∧
        (colorDomain W).position64 w = F64.finite t ∧ 0 ≤ t ∧ t ≤ 1) ∧
    (∀ a b, 0 ≤ a → a ≤ b → b ≤ domainMax W →
      ∃ ta tb : ℚ, (colorDomain W).position64 a = F64.finite ta ∧
        (colorDomain W).position64 b = F64.finite tb ∧ ta ≤ tb) ∧
    (colorDomain W).position64 0 = F64.finite 0 := by
  have htok : tokens ≠ [] := by
    intro e; rw [e] at hN; simp at hN
  have hdom : colorDomain W = SequentialScale.mk 0 (domainMax W) := rfl
  have hmpos : 0 < domainMax W := lt_of_lt_of_le (two_zpow_pos _) hlo
  have hK := (position64_eval (domainMax W) 0 hlo hhi (le_refl 0) (le_of_lt hmpos)).2.1
  rw [render64_done rt interpolate svg aw tokens h W htok hsel]
  simp only [rects_draw64]
  refine ⟨trivial, ?_, ?_, ?_, ?_, ?_⟩
  · intro w
    obtain ⟨hk, hKpos, _, _⟩ :=
      position64_eval (domainMax W) 0 hlo hhi (le_refl 0) (le_of_lt hmpos)
    have hne : ¬ ((0 : ℚ) = domainMax W) := ne_of_lt hmpos
    have hk2 : (SequentialScale.mk 0 (domainMax W)).k10f =
        F64.recip (fl (domainMax W - 0)) := by
      simp only [SequentialScale.k10f, if_neg hne]
    have hk0 : ¬ ((SequentialScale.mk 0 (domainMax W)).k10f = F64.finite 0) := by
      rw [hk]
      intro e
      injection e with e
      exact (ne_of_gt hKpos) e
    rw [hdom, SequentialScale.position64, if_neg hk0, hk2]
  · intro i j w hw
    exact ⟨_, cell64_mem_cells64 rt interpolate tokens W i j w hw, rfl, rfl⟩
  · intro c hc
    obtain ⟨i, j, w, hw, rfl⟩ := mem_cells64 rt interpolate tokens W c hc
    obtain ⟨_, _, hp, hle⟩ :=
      position64_eval (domainMax W) w hlo hhi (hnn w hw) (le_domainMax W w hw)
    refine ⟨w, hw, _, ?_, by rw [hdom]; exact hp, ?_, hle⟩
    · show interpolate ((colorDomain W).position64 w) = _
      rw [hdom, hp]
    · exact roundMagnitude_nonneg
        (mul_nonneg (roundMagnitude_nonneg (hnn w hw)) (le_of_lt hK))
  · intro a b ha hab hb
    obtain ⟨_, _, hpa, _⟩ :=
      position64_eval (domainMax W) a hlo hhi ha (le_trans hab hb)
    obtain ⟨_, _, hpb, _⟩ :=
      position64_eval (domainMax W) b hlo hhi (le_trans ha hab) hb
    refine ⟨_, _, by rw [hdom]; exact hpa, by rw [hdom]; exact hpb, ?_⟩
    apply roundMagnitude_mono
      (mul_nonneg (roundMagnitude_nonneg ha) (le_of_lt hK))
    exact mul_le_mul_of_nonneg_right (roundMagnitude_mono ha hab) (le_of_lt hK)
  · obtain ⟨_, _, hp, _⟩ :=
      position64_eval (domainMax W) 0 hlo hhi (le_refl 0) (le_of_lt hmpos)
    rw [hdom, hp, roundMagnitude_zero, zero_mul, roundMagnitude_zero]

theorem domainMax_diag6_normal :
    (2 : ℚ) ^ (-1022 : ℤ) ≤ domainMax diag6 ∧ domainMax diag6 ≤ (2 : ℚ) ^ (1022 : ℤ) := by
  have e : domainMax diag6 = (2 : ℚ) ^ (-1 : ℤ) := by
    rw [domainMax_diag6]; norm_num
  rw [e]
  exact ⟨two_zpow_mono (by norm_num), two_zpow_mono (by norm_num)⟩

theorem colour_position_weakly_increasing_witness :
    1 ≤ tokens6.length ∧ (∀ w ∈ diag6.flatten, 0 ≤ w) ∧
    (2 : ℚ) ^ (-1022 : ℤ) ≤ domainMax diag6 ∧ domainMax diag6 ≤ (2 : ℚ) ^ (1022 : ℤ) ∧
    (∀ i j, i < 6 → j < 6 →
      ∃ w, (diag6[i]?).bind (fun row => row[j]?) = some w ∧
        w = (if i = j then 1 / 2 else 1 / 10) ∧
        (colorDomain diag6).position64 w =
          F64.finite (if i = j then 1 else 3602879701896397 / 18014398509481984) ∧
        ∃ c ∈ (render64 sampleRuntime sampleInterpolate Svg.empty [[diag6]] tokens6 0).2.rects,
          c = cell64 sampleRuntime sampleInterpolate tokens6 diag6 i j w ∧
          c.fill = sampleInterpolate
            (F64.finite (if i = j then 1 else 3602879701896397 / 18014398509481984))) ∧
    (3602879701896397 / 18014398509481984 : ℚ) < 1 := by
  obtain ⟨_, _, hlink, _, _, _⟩ :=
    colour_position_weakly_increasing sampleRuntime sampleInterpolate Svg.empty [[diag6]]
      tokens6 0 diag6 (by decide) rfl diag6_nonneg
      domainMax_diag6_normal.1 domainMax_diag6_normal.2
  refine ⟨by decide, diag6_nonneg, domainMax_diag6_normal.1, domainMax_diag6_normal.2, ?_,
    by norm_num⟩
  have hval : ∀ i j, i < 6 → j < 6 →
      (diag6[i]?).bind (fun row => row[j]?) = some (if i = j then 1 / 2 else 1 / 10) := by
    intro i j hi hj
    interval_cases i <;> interval_cases j <;> rfl
  intro i j hi hj
  have hw := hval i j hi hj
  by_cases hij : i = j
  · rw [if_pos hij] at hw
    simp only [if_pos hij]
    obtain ⟨c, hc, hcell, hfill⟩ := hlink i j (1 / 2) hw
    exact ⟨1 / 2, hw, rfl, position64_diag6.1, c, hc, hcell,
      by rw [hfill, position64_diag6.1]⟩
  · rw [if_neg hij] at hw
    simp only [if_neg hij]
    obtain ⟨c, hc, hcell, hfill⟩ := hlink i j (1 / 10) hw
    exact ⟨1 / 10, hw, rfl, position64_diag6.2, c, hc, hcell,
      by rw [hfill, position64_diag6.2]⟩

/-! ## Head selection (C8, C3) -/

theorem selectWeights_valid (aw : List (List (List (List ℚ)))) (batch : List (List (List ℚ)))
    (h : Int) (hb : aw[0]? = some batch) (h0 : 0 ≤ h) (h1 : h < batch.length) :
    ∃ W, batch[h.toNat]? = some W ∧ selectWeights aw h = some W := by
  have hlt : h.toNat < batch.length := by omega
  refine ⟨batch[h.toNat], List.getElem?_eq_getElem hlt, ?_⟩
  simp only [selectWeights, hb, Option.some_bind, index, if_pos h0]
  exact List.getElem?_eq_getElem hlt

theorem selectWeights_invalid (aw : List (List (List (List ℚ)))) (batch : List (List (List ℚ)))
    (h : Int) (hb : aw[0]? = some batch) (hout : h < 0 ∨ (batch.length : Int) ≤ h) :
    selectWeights aw h = none := by
  simp only [selectWeights, hb, Option.some_bind, index]
  by_cases h0 : 0 ≤ h
  · rw [if_pos h0]
    apply List.getElem?_eq_none
    omega
  · rw [if_neg h0]

theorem ne_nil_of_head {α : Type} {l : List α} {a : α} (h : l[0]? = some a) : l ≠ [] := by
  intro e
  rw [e] at h
  simp at h

/-- C8: for a non-empty token list and a valid head index `h2` of the first
batch entry, rendering any head `h1` (in particular a valid one) and then
head `h2` on the same surface, whatever it held before, ends exactly as a
first render of head `h2` on an empty surface does: it completes, and the
scene holds the drawing of head `h2` and nothing else. -/
theorem head_switch_no_residue (rt : Runtime) (s0 : Svg)
    (aw : List (List (List (List ℚ)))) (batch : List (List (List ℚ)))
    (tokens : List String) (h1 h2 : Int)
    (hN : 1 ≤ tokens.length) (hb : aw[0]? = some batch)
    (h2lo : 0 ≤ h2) (h2hi : h2 < batch.length) :
    render rt (render rt s0 aw tokens h1).2 aw tokens h2 = render rt Svg.empty aw tokens h2 ∧
    (render rt Svg.empty aw tokens h2).1 = Outcome.done ∧
    ∃ W2, batch[h2.toNat]? = some W2 ∧
      (render rt (render rt s0 aw tokens h1).2 aw tokens h2).2.elems =
        draw rt tokens W2 h2 := by
  have htok : tokens ≠ [] := by
    intro e; rw [e] at hN; simp at hN
  obtain ⟨W2, hW2, hs2⟩ := selectWeights_valid aw batch h2 hb h2lo h2hi
  rw [render_done rt _ aw tokens h2 W2 htok hs2, render_done rt _ aw tokens h2 W2 htok hs2]
  refine ⟨rfl, rfl, W2, hW2, ?_⟩
  simp [Svg.elems]

theorem head_switch_no_residue_witness :
    render sampleRuntime (render sampleRuntime Svg.empty fourHeads tokens3 2).2
        fourHeads tokens3 0 =
      render sampleRuntime Svg.empty fourHeads tokens3 0 ∧
    (render sampleRuntime Svg.empty fourHeads tokens3 0).1 = Outcome.done ∧
    ∃ W2, [weights3,
        [[1, 0, 0], [0, 1, 0], [0, 0, 1]],
        [[0, 0, 1], [0, 1, 0], [1, 0, 0]],
        [[1 / 3, 1 / 3, 1 / 3], [1 / 3, 1 / 3, 1 / 3], [1 / 3, 1 / 3, 1 / 3]]][(0 : Int).toNat]? =
          some W2 ∧
      (render sampleRuntime (render sampleRuntime Svg.empty fourHeads tokens3 2).2
        fourHeads tokens3 0).2.elems = draw sampleRuntime tokens3 W2 0 :=
  head_switch_no_residue sampleRuntime Svg.empty fourHeads _ tokens3 2 0
    (by decide) rfl (by decide) (by decide)

/-- C3 as stated fails: with four heads, head index 4 is not clamped to 3 and
head index -1 is not clamped to 0; the render raises the `TypeError` and the
surface holds no cell, whereas heads 3 and 0 draw nine cells. -/
theorem out_of_range_head_not_clamped :
    (render sampleRuntime Svg.empty fourHeads tokens3 4).1 = Outcome.typeError ∧
    (render sampleRuntime Svg.empty fourHeads tokens3 4).2.rects = [] ∧
    (render sampleRuntime Svg.empty fourHeads tokens3 3).2.rects.length = 9 ∧
    (render sampleRuntime Svg.empty fourHeads tokens3 (-1)).1 = Outcome.typeError ∧
    (render sampleRuntime Svg.empty fourHeads tokens3 (-1)).2.rects = [] ∧
    (render sampleRuntime Svg.empty fourHeads tokens3 0).2.rects.length = 9 := by
  have ht : tokens3 ≠ [] := by decide
  have ha : fourHeads ≠ [] := by
    intro e; exact List.noConfusion e
  have s4 : selectWeights fourHeads 4 = none :=
    selectWeights_invalid fourHeads _ 4 rfl (Or.inr (by decide))
  have sm : selectWeights fourHeads (-1) = none :=
    selectWeights_invalid fourHeads _ (-1) rfl (Or.inl (by decide))
  have s3 : selectWeights fourHeads 3 =
      some [[1 / 3, 1 / 3, 1 / 3], [1 / 3, 1 / 3, 1 / 3], [1 / 3, 1 / 3, 1 / 3]] := rfl
  have s0 : selectWeights fourHeads 0 = some weights3 := rfl
  rw [render_typeError sampleRuntime Svg.empty fourHeads tokens3 4 ht ha s4,
    render_typeError sampleRuntime Svg.empty fourHeads tokens3 (-1) ht ha sm,
    render_done sampleRuntime Svg.empty fourHeads tokens3 3 _ ht s3,
    render_done sampleRuntime Svg.empty fourHeads tokens3 0 _ ht s0]
  simp only [rects_draw, cells_length]
  refine ⟨?_, ?_, ?_, ?_, ?_, ?_⟩ <;> trivial

/-- C3, amended: the head index is used as it is. For a non-empty token list
and a first batch entry with `H` heads, an index in `[0, H)` draws the grid
of exactly that head under the title of that head; an index outside
`[0, H)` selects no slice and the render fails with the `TypeError`, leaving
an empty group: no cell, no label, no caption, no title. -/
theorem head_index_used_verbatim (rt : Runtime) (svg : Svg)
    (aw : List (List (List (List ℚ)))) (batch : List (List (List ℚ)))
    (tokens : List String) (h : Int)
    (hN : 1 ≤ tokens.length) (hb : aw[0]? = some batch) :
    (0 ≤ h → h < batch.length →
      ∃ W, batch[h.toNat]? = some W ∧
        (render rt svg aw tokens h).1 = Outcome.done ∧
        (render rt svg aw tokens h).2.rects = cells rt tokens W ∧
        (render rt svg aw tokens h).2.texts = [xCaption, yCaption, headTitle h]) ∧
    ((h < 0 ∨ (batch.length : Int) ≤ h) →
      (render rt svg aw tokens h).1 = Outcome.typeError ∧
      (render rt svg aw tokens h).2.children = [⟨(90, 20), []⟩] ∧
      (render rt svg aw tokens h).2.rects = [] ∧
      (render rt svg aw tokens h).2.labelGroups = [] ∧
      (render rt svg aw tokens h).2.texts = []) := by
  have htok : tokens ≠ [] := by
    intro e; rw [e] at hN; simp at hN
  constructor
  · intro h0 h1
    obtain ⟨W, hW, hs⟩ := selectWeights_valid aw batch h hb h0 h1
    rw [render_done rt svg aw tokens h W htok hs]
    exact ⟨W, hW, rfl, rects_draw _ _ _ _ _ _ _, texts_draw _ _ _ _ _ _ _⟩
  · intro hout
    rw [render_typeError rt svg aw tokens h htok (ne_nil_of_head hb)
      (selectWeights_invalid aw batch h hb hout)]
    exact ⟨rfl, rfl, rfl, rfl, rfl⟩

theorem head_index_used_verbatim_witness :
    (∃ W, [weights3,
        [[1, 0, 0], [0, 1, 0], [0, 0, 1]],
        [[0, 0, 1], [0, 1, 0], [1, 0, 0]],
        [[1 / 3, 1 / 3, 1 / 3], [1 / 3, 1 / 3, 1 / 3], [1 / 3, 1 / 3, 1 / 3]]][(1 : Int).toNat]? =
          some W ∧
      (render sampleRuntime Svg.empty fourHeads tokens3 1).1 = Outcome.done ∧
      (render sampleRuntime Svg.empty fourHeads tokens3 1).2.rects =
        cells sampleRuntime tokens3 W ∧
      (render sampleRuntime Svg.empty fourHeads tokens3 1).2.texts =
        [xCaption, yCaption, headTitle 1]) ∧
    ((render sampleRuntime Svg.empty fourHeads tokens3 7).1 = Outcome.typeError ∧
      (render sampleRuntime Svg.empty fourHeads tokens3 7).2.children = [⟨(90, 20), []⟩] ∧
      (render sampleRuntime Svg.empty fourHeads tokens3 7).2.rects = [] ∧
      (render sampleRuntime Svg.empty fourHeads tokens3 7).2.labelGroups = [] ∧
      (render sampleRuntime Svg.empty fourHeads tokens3 7).2.texts = []) :=
  ⟨(head_index_used_verbatim sampleRuntime Svg.empty fourHeads _ tokens3 1
      (by decide) rfl).1 (by decide) (by decide),
   (head_index_used_verbatim sampleRuntime Svg.empty fourHeads _ tokens3 7
      (by decide) rfl).2 (Or.inr (by decide))⟩

/-! ## Shapes and empty inputs (C2, C4) -/

theorem cell_mem_cells (rt : Runtime) (tokens : List String) (W : List (List ℚ))
    (i j : Nat) (w : ℚ) (hw : (W[i]?).bind (fun row => row[j]?) = some w) :
    cell rt tokens W i j w ∈ cells rt tokens W := by
  cases hi : W[i]? with
  | none => simp [hi] at hw
  | some row =>
    simp only [hi, Option.some_bind] at hw
    rw [cells, List.mem_flatten]
    exact ⟨row.mapIdx (fun j w => cell rt tokens W i j w),
      mem_mapIdx_intro (f := fun i row => row.mapIdx (fun j w => cell rt tokens W i j w)) hi,
      mem_mapIdx_intro (f := fun j w => cell rt tokens W i j w) hw⟩

/-- C2 as stated fails: six tokens against six rows of length 5 are not
rejected; the render completes and draws 30 cells, six labels on each axis,
both captions and the title. -/
theorem shape_mismatch_is_drawn :
    (render sampleRuntime Svg.empty [[short6]] tokens6 0).1 = Outcome.done ∧
    (render sampleRuntime Svg.empty [[short6]] tokens6 0).2.rects.length = 30 ∧
    (render sampleRuntime Svg.empty [[short6]] tokens6 0).2.labelGroups.map
      (fun g => g.2.length) = [6, 6] ∧
    (render sampleRuntime Svg.empty [[short6]] tokens6 0).2.texts.length = 3 := by
  have ht : tokens6 ≠ [] := by decide
  rw [render_done sampleRuntime Svg.empty [[short6]] tokens6 0 short6 ht rfl]
  simp only [rects_draw, labelGroups_draw, texts_draw, cells_length]
  refine ⟨?_, ?_, ?_, ?_⟩ <;> trivial

/-- C2, amended: the render validates no shape. For every non-empty token
list of length `N` and every selected slice, `N x N` or not, it completes and
draws one cell per entry of the slice (the cell of an entry in a column
`j ≥ N` sits at `x = 0` and names the source token `undefined`), `N` labels
on each axis, both captions and the title. -/
theorem no_shape_validation (rt : Runtime) (svg : Svg) (aw : List (List (List (List ℚ))))
    (tokens : List String) (h : Int) (W : List (List ℚ))
    (hN : 1 ≤ tokens.length) (hsel : selectWeights aw h = some W) :
    (render rt svg aw tokens h).1 = Outcome.done ∧
    (render rt svg aw tokens h).2.rects.length = (W.map List.length).sum ∧
    (∀ i j w, (W[i]?).bind (fun row => row[j]?) = some w →
      ∃ c ∈ (render rt svg aw tokens h).2.rects,
        c = cell rt tokens W i j w ∧
        (tokens.length ≤ j → c.x = 0 ∧ tokenText tokens j = "undefined")) ∧
    (render rt svg aw tokens h).2.labelGroups =
      [(some (0, 390), xLabels tokens), (none, yLabels tokens)] ∧
    (xLabels tokens).length = tokens.length ∧ (yLabels tokens).length = tokens.length ∧
    (render rt svg aw tokens h).2.texts = [xCaption, yCaption, headTitle h] := by
  have htok : tokens ≠ [] := by
    intro e; rw [e] at hN; simp at hN
  rw [render_done rt svg aw tokens h W htok hsel]
  simp only [rects_draw, labelGroups_draw, texts_draw, height_eq]
  refine ⟨trivial, cells_length rt tokens W, ?_, trivial, ?_, ?_, trivial⟩
  · intro i j w hw
    refine ⟨_, cell_mem_cells rt tokens W i j w hw, rfl, ?_⟩
    intro hj
    constructor
    · show (xScale tokens).coord j = 0
      exact scaleBand_coord_unknown _ _ _ _ _ hj
    · rw [tokenText, List.getElem?_eq_none hj]; rfl
  · rw [xLabels, List.length_mapIdx]
  · rw [yLabels, List.length_mapIdx]

theorem no_shape_validation_witness :
    1 ≤ tokens6.length ∧
    (render sampleRuntime Svg.empty [[short6]] tokens6 0).1 = Outcome.done ∧
    (render sampleRuntime Svg.empty [[short6]] tokens6 0).2.rects.length =
      (short6.map List.length).sum ∧
    (∀ i j w, (short6[i]?).bind (fun row => row[j]?) = some w →
      ∃ c ∈ (render sampleRuntime Svg.empty [[short6]] tokens6 0).2.rects,
        c = cell sampleRuntime tokens6 short6 i j w ∧
        (tokens6.length ≤ j → c.x = 0 ∧ tokenText tokens6 j = "undefined")) ∧
    (render sampleRuntime Svg.empty [[short6]] tokens6 0).2.labelGroups =
      [(some (0, 390), xLabels tokens6), (none, yLabels tokens6)] ∧
    (xLabels tokens6).length = tokens6.length ∧ (yLabels tokens6).length = tokens6.length ∧
    (render sampleRuntime Svg.empty [[short6]] tokens6 0).2.texts =
      [xCaption, yCaption, headTitle 0] :=
  ⟨by decide,
    no_shape_validation sampleRuntime Svg.empty [[short6]] tokens6 0 short6 (by decide) rfl⟩

/-- C4 as stated fails: with a non-empty token list, a selected slice with
zero rows still gets its axis labels, both captions and the title, and a
batch entry without any head slice makes the render raise the `TypeError`. -/
theorem empty_slice_not_a_noop :
    (render sampleRuntime Svg.empty [[[]]] tokens3 0).1 = Outcome.done ∧
    (render sampleRuntime Svg.empty [[[]]] tokens3 0).2.texts =
      [xCaption, yCaption, headTitle 0] ∧
    (render sampleRuntime Svg.empty [[[]]] tokens3 0).2.labelGroups.map
      (fun g => g.2.length) = [3, 3] ∧
    (render sampleRuntime Svg.empty [[]] tokens3 0).1 = Outcome.typeError := by
  have ht : tokens3 ≠ [] := by decide
  have ha : ([[]] : List (List (List (List ℚ)))) ≠ [] := by
    intro e; exact List.noConfusion e
  rw [render_done sampleRuntime Svg.empty [[[]]] tokens3 0 [] ht rfl,
    render_typeError sampleRuntime Svg.empty [[]] tokens3 0 ht ha rfl]
  simp only [labelGroups_draw, texts_draw]
  refine ⟨?_, ?_, ?_, ?_⟩ <;> trivial

/-- C4, amended: when the token list is empty or the tensor has no batch
entry the render completes and leaves the surface exactly as it was, so
nothing is emitted (on an empty surface: no cell, no label, no caption, no
title). When the selected slice has zero rows and the token list has
`N ≥ 1` tokens the render also completes and emits no cell, but it emits the
`N` labels of each axis, both captions and the title. -/
theorem empty_input_behaviour (rt : Runtime) (svg : Svg)
    (aw : List (List (List (List ℚ)))) (tokens : List String) (h : Int) :
    ((tokens = [] ∨ aw = []) →
      render rt svg aw tokens h = (Outcome.done, svg) ∧
      (render rt Svg.empty aw tokens h).2.rects = [] ∧
      (render rt Svg.empty aw tokens h).2.labelGroups = [] ∧
      (render rt Svg.empty aw tokens h).2.texts = []) ∧
    (1 ≤ tokens.length → selectWeights aw h = some [] →
      (render rt svg aw tokens h).1 = Outcome.done ∧
      (render rt svg aw tokens h).2.rects = [] ∧
      (render rt svg aw tokens h).2.labelGroups =
        [(some (0, 390), xLabels tokens), (none, yLabels tokens)] ∧
      (xLabels tokens).length = tokens.length ∧ (yLabels tokens).length = tokens.length ∧
      (render rt svg aw tokens h).2.texts = [xCaption, yCaption, headTitle h]) := by
  constructor
  · intro hempty
    have hguard : aw.length = 0 ∨ tokens.length = 0 := by
      rcases hempty with e | e
      · right; rw [e]; rfl
      · left; rw [e]; rfl
    have hret : ∀ s : Svg, render rt s aw tokens h = (Outcome.done, s) := by
      intro s
      simp only [render, if_pos hguard]
    rw [hret svg, hret Svg.empty]
    exact ⟨rfl, rfl, rfl, rfl⟩
  · intro hN hsel
    have htok : tokens ≠ [] := by
      intro e; rw [e] at hN; simp at hN
    rw [render_done rt svg aw tokens h [] htok hsel]
    simp only [rects_draw, labelGroups_draw, texts_draw, height_eq]
    refine ⟨trivial, rfl, trivial, ?_, ?_, trivial⟩
    · rw [xLabels, List.length_mapIdx]
    · rw [yLabels, List.length_mapIdx]

theorem empty_input_behaviour_witness :
    (render sampleRuntime Svg.empty fourHeads [] 0 = (Outcome.done, Svg.empty) ∧
      (render sampleRuntime Svg.empty fourHeads [] 0).2.rects = [] ∧
      (render sampleRuntime Svg.empty fourHeads [] 0).2.labelGroups = [] ∧
      (render sampleRuntime Svg.empty fourHeads [] 0).2.texts = []) ∧
    ((render sampleRuntime Svg.empty [[[]]] tokens3 0).1 = Outcome.done ∧
      (render sampleRuntime Svg.empty [[[]]] tokens3 0).2.rects = [] ∧
      (render sampleRuntime Svg.empty [[[]]] tokens3 0).2.labelGroups =
        [(some (0, 390), xLabels tokens3), (none, yLabels tokens3)] ∧
      (xLabels tokens3).length = tokens3.length ∧ (yLabels tokens3).length = tokens3.length ∧
      (render sampleRuntime Svg.empty [[[]]] tokens3 0).2.texts =
        [xCaption, yCaption, headTitle 0]) :=
  ⟨(empty_input_behaviour sampleRuntime Svg.empty fourHeads [] 0).1 (Or.inl rfl),
   (empty_input_behaviour sampleRuntime Svg.empty [[[]]] tokens3 0).2 (by decide) rfl⟩

end AttentionVisualization
